import Mathlib

/-!
# Teltonika FMB frame parser: a shallow embedding of `main.go`

The Go program decodes a Teltonika AVL data frame from a byte slice.  The
embedding below follows `main.go` function by function.

* A Go byte slice is modelled by `Slice`: the bytes visible through the slice
  (`elems`, so `len = elems.length`) followed by the bytes of the backing array
  that lie between the length and the capacity (`spare`).  An index expression
  `s[i]` is checked against the length, a slice expression `s[lo:hi]` against
  the capacity, exactly as the Go runtime does.
* A run-time panic (index or slice bounds out of range) is the error
  `Fault.outOfRange`.
* `uint8` is `Fin 256`; wider unsigned integers are `Nat` reduced modulo
  `2 ^ w` where a shift could leave the width; `time.Time` is represented by
  the Unix millisecond value of the instant (an `Int`).
* A one-entry map literal `map[uint8]T{k: v}` is the pair `(k, v)`.
-/

namespace Teltonika

/-- A `uint8`. -/
abbrev Byte := Fin 256

/-- The ways a run of the model can stop without a value: a Go run-time panic
for an index or slice bound out of range, or the loop budget of the model
running out (shown below never to happen). -/
inductive Fault where
  | outOfRange
  | outOfFuel
deriving DecidableEq, Repr

/-- A Go `[]byte`: the visible elements and the rest of the backing array up to
the capacity. -/
structure Slice where
  elems : List Byte
  spare : List Byte
deriving DecidableEq, Repr

/-- Go `len(s)`. -/
def Slice.len (s : Slice) : Nat := s.elems.length

/-- Go `cap(s)`. -/
def Slice.cap (s : Slice) : Nat := s.elems.length + s.spare.length

/-- The backing array seen from the first element of the slice. -/
def Slice.backing (s : Slice) : List Byte := s.elems ++ s.spare

/-- A slice whose capacity equals its length, such as a slice literal. -/
def Slice.ofList (l : List Byte) : Slice := { elems := l, spare := [] }

/-- Go `s[i]`: panics unless `i < len(s)`. -/
def Slice.index (s : Slice) (i : Nat) : Except Fault Byte :=
  match s.elems[i]? with
  | some b => .ok b
  | none => .error .outOfRange

/-- Go `s[lo:hi]`: panics unless `lo ≤ hi ≤ cap(s)`; the result shares the
backing array. -/
def Slice.slice (s : Slice) (lo hi : Nat) : Except Fault Slice :=
  if lo ≤ hi ∧ hi ≤ s.cap then
    .ok { elems := (s.backing.drop lo).take (hi - lo), spare := s.backing.drop hi }
  else .error .outOfRange

/-- Go `binary.BigEndian.Uint16` (standard library):
`_ = b[1]; return uint16(b[1]) | uint16(b[0])<<8`. -/
def bigEndianUint16 (b : Slice) : Except Fault Nat := do
  let _ ← b.index 1
  let b1 ← b.index 1
  let b0 ← b.index 0
  pure (b1.val ||| (b0.val <<< 8) % 2 ^ 16)

/-- Go `binary.BigEndian.Uint32` (standard library):
`_ = b[3]; return uint32(b[3]) | uint32(b[2])<<8 | uint32(b[1])<<16 | uint32(b[0])<<24`. -/
def bigEndianUint32 (b : Slice) : Except Fault Nat := do
  let _ ← b.index 3
  let b3 ← b.index 3
  let b2 ← b.index 2
  let b1 ← b.index 1
  let b0 ← b.index 0
  pure (b3.val ||| (b2.val <<< 8) % 2 ^ 32 ||| (b1.val <<< 16) % 2 ^ 32
    ||| (b0.val <<< 24) % 2 ^ 32)

/-- Go `binary.BigEndian.Uint64` (standard library):
`_ = b[7]; return uint64(b[7]) | uint64(b[6])<<8 | ... | uint64(b[0])<<56`. -/
def bigEndianUint64 (b : Slice) : Except Fault Nat := do
  let _ ← b.index 7
  let b7 ← b.index 7
  let b6 ← b.index 6
  let b5 ← b.index 5
  let b4 ← b.index 4
  let b3 ← b.index 3
  let b2 ← b.index 2
  let b1 ← b.index 1
  let b0 ← b.index 0
  pure (b7.val ||| (b6.val <<< 8) % 2 ^ 64 ||| (b5.val <<< 16) % 2 ^ 64
    ||| (b4.val <<< 24) % 2 ^ 64 ||| (b3.val <<< 32) % 2 ^ 64
    ||| (b2.val <<< 40) % 2 ^ 64 ||| (b1.val <<< 48) % 2 ^ 64
    ||| (b0.val <<< 56) % 2 ^ 64)

/-- Go conversion `int64(u)` of a `uint64`: the two's-complement
reinterpretation of the same 64 bits. -/
def toInt64 (u : Nat) : Int :=
  if u % 2 ^ 64 < 2 ^ 63 then ((u % 2 ^ 64 : Nat) : Int)
  else ((u % 2 ^ 64 : Nat) : Int) - 2 ^ 64

/-- Go `time.UnixMilli(msec)` (standard library): the instant `msec`
milliseconds after the Unix epoch.  The instant is represented by that
millisecond value. -/
def timeUnixMilli (msec : Int) : Int := msec

structure GPSElement where
  Longitude : Nat
  Latitude : Nat
  Altitude : Nat
  Angle : Nat
  Satellites : Byte
  Speed : Nat
deriving DecidableEq, Repr

structure IOElement where
  EventIOID : Byte
  NoOfTotalIO : Byte
  OneByteIO : List (Byte × Byte)
  TwoByteIO : List (Byte × Nat)
  FourByteIO : List (Byte × Nat)
  EightByteIO : List (Byte × Nat)
deriving DecidableEq, Repr

structure AVLData where
  Timestamp : Int
  Priority : Byte
  GPSElement : GPSElement
  IOElement : IOElement
deriving DecidableEq, Repr

structure AVLDataArray where
  CodecID : Byte
  NoOfData : Byte
  AVLData : List AVLData
deriving DecidableEq, Repr

/-- `parseGPSElement` of `main.go`. -/
def parseGPSElement (data : Slice) : Except Fault GPSElement := do
  let lon ← (data.slice 0 4) >>= bigEndianUint32
  let lat ← (data.slice 4 8) >>= bigEndianUint32
  let alt ← (data.slice 8 10) >>= bigEndianUint16
  let ang ← (data.slice 10 12) >>= bigEndianUint16
  let sat ← data.index 12
  let spd ← (data.slice 13 15) >>= bigEndianUint16
  pure { Longitude := lon, Latitude := lat, Altitude := alt, Angle := ang,
         Satellites := sat, Speed := spd }

/-- `parseTimestamp` of `main.go`. -/
def parseTimestamp (data : Slice) : Except Fault Int := do
  let unixTimestamp ← bigEndianUint64 data
  pure (timeUnixMilli (toInt64 unixTimestamp))

/-- The loop of `parseOneByteIO`: `for i := 0; i < len(data); i += 2`, entered
at index `i` with `oneByteIO = acc`.  `fuel` bounds the number of iterations. -/
def parseOneByteIOLoop (data : Slice) : Nat → Nat → List (Byte × Byte) →
    Except Fault (List (Byte × Byte))
  | fuel, i, acc =>
    if i < data.len then
      match fuel with
      | 0 => .error .outOfFuel
      | fuel + 1 => do
        let k ← data.index i
        let v ← data.index (i + 1)
        parseOneByteIOLoop data fuel (i + 2) (acc ++ [(k, v)])
    else .ok acc

/-- `parseOneByteIO` of `main.go`. -/
def parseOneByteIO (data : Slice) : Except Fault (List (Byte × Byte)) :=
  parseOneByteIOLoop data data.len 0 []

/-- The loop shared in shape by `parseTwoByteIO`, `parseFourByteIO` and
`parseEightByteIO`: `for i := 0; i < len(data); i += 1 + w`, each iteration
appending `{data[i]: dec(data[i+1 : i+1+w])}`. -/
def parseWideIOLoop (w : Nat) (dec : Slice → Except Fault Nat) (data : Slice) :
    Nat → Nat → List (Byte × Nat) → Except Fault (List (Byte × Nat))
  | fuel, i, acc =>
    if i < data.len then
      match fuel with
      | 0 => .error .outOfFuel
      | fuel + 1 => do
        let k ← data.index i
        let window ← data.slice (i + 1) (i + 1 + w)
        let v ← dec window
        parseWideIOLoop w dec data fuel (i + 1 + w) (acc ++ [(k, v)])
    else .ok acc

/-- `parseTwoByteIO` of `main.go`. -/
def parseTwoByteIO (data : Slice) : Except Fault (List (Byte × Nat)) :=
  parseWideIOLoop 2 bigEndianUint16 data data.len 0 []

/-- `parseFourByteIO` of `main.go`. -/
def parseFourByteIO (data : Slice) : Except Fault (List (Byte × Nat)) :=
  parseWideIOLoop 4 bigEndianUint32 data data.len 0 []

/-- `parseEightByteIO` of `main.go`. -/
def parseEightByteIO (data : Slice) : Except Fault (List (Byte × Nat)) :=
  parseWideIOLoop 8 bigEndianUint64 data data.len 0 []

/-- One iteration of the loop of `Parse`, entered with the cursor at
`startIndex`: the decoded record and the new value of `startIndex`. -/
def parseRecord (body : Slice) (startIndex : Nat) : Except Fault (AVLData × Nat) := do
  -- timestamp
  let timestampStartIndex := startIndex
  let timestampEndIndex := timestampStartIndex + 8
  let timestamp ← body.slice timestampStartIndex timestampEndIndex
  let ts ← parseTimestamp timestamp
  -- priority
  let priorityIndex := timestampEndIndex
  let priority ← body.index timestampEndIndex
  -- gps
  let gpsStartIndex := priorityIndex + 1
  let gpsEndIndex := gpsStartIndex + 15
  let gps ← body.slice gpsStartIndex gpsEndIndex
  let gpsElement ← parseGPSElement gps
  -- IO
  let eventIOIDIndex := gpsEndIndex
  let eventIOID ← body.index eventIOIDIndex
  -- Total Number of IO
  let noOfTotalIOIndex := eventIOIDIndex + 1
  let noOfTotalIO ← body.index noOfTotalIOIndex
  -- One Byte IO Number
  let noOfOneByteIOIndex := noOfTotalIOIndex + 1
  let noOfOneByteIO ← body.index noOfOneByteIOIndex
  -- One Byte IO Data
  let oneByteIOStartIndex := noOfOneByteIOIndex + 1
  let oneByteIOEndIndex := oneByteIOStartIndex + noOfOneByteIO.val * 2
  let oneByteIO ← body.slice oneByteIOStartIndex oneByteIOEndIndex
  let oneByte ← parseOneByteIO oneByteIO
  -- Two Byte IO Number
  let noOfTwoByteIOIndex := oneByteIOEndIndex
  let noOfTwoByteIO ← body.index noOfTwoByteIOIndex
  -- Two Byte IO Data
  let twoByteIOStartIndex := noOfTwoByteIOIndex + 1
  let twoByteIOEndIndex := twoByteIOStartIndex + noOfTwoByteIO.val * 3
  let twoByteIO ← body.slice twoByteIOStartIndex twoByteIOEndIndex
  let twoByte ← parseTwoByteIO twoByteIO
  -- Four Byte IO
  let noOfFourByteIOIndex := twoByteIOEndIndex
  let noOfFourByteIO ← body.index noOfFourByteIOIndex
  let fourByteIOStartIndex := noOfFourByteIOIndex + 1
  let fourByteIOEndIndex := fourByteIOStartIndex + noOfFourByteIO.val * 5
  let fourByteIO ← body.slice fourByteIOStartIndex fourByteIOEndIndex
  let fourByte ← parseFourByteIO fourByteIO
  -- Eight Byte IO
  let noOfEightByteIOIndex := fourByteIOEndIndex
  let noOfEightByteIO ← body.index noOfEightByteIOIndex
  let eightByteIOStartIndex := noOfEightByteIOIndex + 1
  let eightByteIOEndIndex := eightByteIOStartIndex + noOfEightByteIO.val * 9
  let eightByteIO ← body.slice eightByteIOStartIndex eightByteIOEndIndex
  let eightByte ← parseEightByteIO eightByteIO
  pure ({ Timestamp := ts, Priority := priority, GPSElement := gpsElement,
          IOElement := { EventIOID := eventIOID, NoOfTotalIO := noOfTotalIO,
                         OneByteIO := oneByte, TwoByteIO := twoByte,
                         FourByteIO := fourByte, EightByteIO := eightByte } },
        noOfEightByteIOIndex + 1 + noOfEightByteIO.val * 9)

/-- The loop of `Parse`, `for i := 0; i < int(noOfData); i++`, with `n`
iterations still to run, the cursor at `startIndex` and `acc` the records
appended so far: the final record list and the final `startIndex`. -/
def parseLoop (body : Slice) : Nat → Nat → List AVLData → Except Fault (List AVLData × Nat)
  | 0, startIndex, acc => .ok (acc, startIndex)
  | n + 1, startIndex, acc => do
    let (avlData, next) ← parseRecord body startIndex
    parseLoop body n next (acc ++ [avlData])

/-- `Parse` of `main.go`, returning next to the frame the value the local
cursor `startIndex` holds when the loop has ended. -/
def parseWithCursor (body : Slice) : Except Fault (AVLDataArray × Nat) := do
  let codecID ← body.index 0
  let noOfData ← body.index 1
  let (records, cursor) ← parseLoop body noOfData.val 2 []
  pure ({ CodecID := codecID, NoOfData := noOfData, AVLData := records }, cursor)

/-- `Parse` of `main.go`. -/
def Parse (body : Slice) : Except Fault AVLDataArray := do
  let r ← parseWithCursor body
  pure r.1

/-- The slice literal `body` of `main` in `main.go`. -/
def mainBody : Slice := Slice.ofList [
  0x08, 0x04, 0x00, 0x00, 0x01, 0x13, 0xfc, 0x20, 0x8d, 0xff,
  0x00, 0x0f, 0x14, 0xf6, 0x50, 0x20, 0x9c, 0xca, 0x80, 0x00,
  0x6f, 0x00, 0xd6, 0x04, 0x00, 0x04, 0x00, 0x04, 0x03, 0x01,
  0x01, 0x15, 0x03, 0x16, 0x03, 0x00, 0x01, 0x46, 0x00, 0x00,
  0x01, 0x5d, 0x00, 0x00, 0x00, 0x01, 0x13, 0xfc, 0x17, 0x61,
  0x0b, 0x00, 0x0f, 0x14, 0xff, 0xe0, 0x20, 0x9c, 0xc5, 0x80,
  0x00, 0x6e, 0x00, 0xc0, 0x05, 0x00, 0x01, 0x00, 0x04, 0x03,
  0x01, 0x01, 0x15, 0x03, 0x16, 0x01, 0x00, 0x01, 0x46, 0x00,
  0x00, 0x01, 0x5e, 0x00, 0x00, 0x00, 0x01, 0x13, 0xfc, 0x28,
  0x49, 0x45, 0x00, 0x0f, 0x15, 0x0f, 0x00, 0x20, 0x9c, 0xd2,
  0x00, 0x00, 0x95, 0x01, 0x08, 0x04, 0x00, 0x00, 0x00, 0x04,
  0x03, 0x01, 0x01, 0x15, 0x00, 0x16, 0x03, 0x00, 0x01, 0x46,
  0x00, 0x00, 0x01, 0x5d, 0x00, 0x00, 0x00, 0x01, 0x13, 0xfc,
  0x26, 0x7c, 0x5b, 0x00, 0x0f, 0x15, 0x0a, 0x50, 0x20, 0x9c,
  0xcc, 0xc0, 0x00, 0x93, 0x00, 0x68, 0x04, 0x00, 0x00, 0x00,
  0x04, 0x03, 0x01, 0x01, 0x15, 0x00, 0x16, 0x03, 0x00, 0x01,
  0x46, 0x00, 0x00, 0x01, 0x5b, 0x00, 0x04]

/-- The frame `Parse` returns for `mainBody`. -/
def mainFrame : AVLDataArray :=
  { CodecID := 0x08, NoOfData := 0x04,
    AVLData := [
      { Timestamp := 0x00000113fc208dff, Priority := 0x00,
        GPSElement := { Longitude := 0x0f14f650, Latitude := 0x209cca80, Altitude := 0x006f,
                        Angle := 0x00d6, Satellites := 0x04, Speed := 0x0004 },
        IOElement := { EventIOID := 0x00, NoOfTotalIO := 0x04,
                       OneByteIO := [(0x01, 0x01), (0x15, 0x03), (0x16, 0x03)],
                       TwoByteIO := [], FourByteIO := [(0x46, 0x0000015d)],
                       EightByteIO := [] } },
      { Timestamp := 0x00000113fc17610b, Priority := 0x00,
        GPSElement := { Longitude := 0x0f14ffe0, Latitude := 0x209cc580, Altitude := 0x006e,
                        Angle := 0x00c0, Satellites := 0x05, Speed := 0x0001 },
        IOElement := { EventIOID := 0x00, NoOfTotalIO := 0x04,
                       OneByteIO := [(0x01, 0x01), (0x15, 0x03), (0x16, 0x01)],
                       TwoByteIO := [], FourByteIO := [(0x46, 0x0000015e)],
                       EightByteIO := [] } },
      { Timestamp := 0x00000113fc284945, Priority := 0x00,
        GPSElement := { Longitude := 0x0f150f00, Latitude := 0x209cd200, Altitude := 0x0095,
                        Angle := 0x0108, Satellites := 0x04, Speed := 0x0000 },
        IOElement := { EventIOID := 0x00, NoOfTotalIO := 0x04,
                       OneByteIO := [(0x01, 0x01), (0x15, 0x00), (0x16, 0x03)],
                       TwoByteIO := [], FourByteIO := [(0x46, 0x0000015d)],
                       EightByteIO := [] } },
      { Timestamp := 0x00000113fc267c5b, Priority := 0x00,
        GPSElement := { Longitude := 0x0f150a50, Latitude := 0x209cccc0, Altitude := 0x0093,
                        Angle := 0x0068, Satellites := 0x04, Speed := 0x0000 },
        IOElement := { EventIOID := 0x00, NoOfTotalIO := 0x04,
                       OneByteIO := [(0x01, 0x01), (0x15, 0x00), (0x16, 0x03)],
                       TwoByteIO := [], FourByteIO := [(0x46, 0x0000015b)],
                       EightByteIO := [] } }] }

/-! ## Vocabulary of the specification -/

/-- The big-endian unsigned integer formed by a byte sequence, most significant
byte first. -/
def bigEndianValue (bs : List Byte) : Nat :=
  bs.foldl (fun acc b => acc * 256 + b.val) 0

/-- The number of bytes the specification assigns to a record: 8 (timestamp),
1 (priority), 15 (GPS), 2 (event id and total count), 4 (the four tier count
bytes) and `n * (1 + width)` for each tier of `n` pairs. -/
def recordSize (r : AVLData) : Nat :=
  8 + 1 + 15 + 2 + 4 + 2 * r.IOElement.OneByteIO.length + 3 * r.IOElement.TwoByteIO.length
    + 5 * r.IOElement.FourByteIO.length + 9 * r.IOElement.EightByteIO.length

/-- The offset `s_k` at which record `k` of a frame starts: `s_0 = 2` and
`s_(k+1) = s_k + recordSize (record k)`. -/
def recordStart (records : List AVLData) : Nat → Nat
  | 0 => 2
  | k + 1 => recordStart records k +
      (match records[k]? with
       | some r => recordSize r
       | none => 0)

/-- The record `r` with its `NoOfTotalIO` field replaced by `v` and every other
field kept. -/
def setTotalCount (r : AVLData) (v : Byte) : AVLData :=
  { r with IOElement := { r.IOElement with NoOfTotalIO := v } }

/-! ## Further test buffers -/

/-- A 41-byte frame with one record whose only IO entry is an eight-byte pair:
header `08 01`, timestamp, priority, GPS element, event id `00`, total count
`01`, tier counts `00 00 00 01`, then the pair `4e : 00 00 00 00 00 00 00 2a`. -/
def tailBacking : List Byte := [
  0x08, 0x01, 0x00, 0x00, 0x01, 0x13, 0xfc, 0x20, 0x8d, 0xff,
  0x00, 0x0f, 0x14, 0xf6, 0x50, 0x20, 0x9c, 0xca, 0x80, 0x00,
  0x6f, 0x00, 0xd6, 0x04, 0x00, 0x04, 0x00, 0x01, 0x00, 0x00,
  0x00, 0x01, 0x4e, 0x00, 0x00, 0x00, 0x00, 0x00, 0x00, 0x00,
  0x2a]

/-- The Go slice `b[:40]` of a 41-byte array `b` holding `tailBacking`: length 40,
capacity 41. -/
def tailSlice : Slice := { elems := tailBacking.take 40, spare := tailBacking.drop 40 }

/-- The frame encoded by `tailBacking`. -/
def tailFrame : AVLDataArray :=
  { CodecID := 0x08, NoOfData := 0x01,
    AVLData := [
      { Timestamp := 0x00000113fc208dff, Priority := 0x00,
        GPSElement := { Longitude := 0x0f14f650, Latitude := 0x209cca80, Altitude := 0x006f,
                        Angle := 0x00d6, Satellites := 0x04, Speed := 0x0004 },
        IOElement := { EventIOID := 0x00, NoOfTotalIO := 0x01,
                       OneByteIO := [], TwoByteIO := [], FourByteIO := [],
                       EightByteIO := [(0x4e, 0x2a)] } }] }

/-- The result of Go `append(tailSlice, 0xff)`: the spare byte of the backing
array is overwritten in place. -/
def tailAppended : Slice := { elems := tailSlice.elems ++ [0xff], spare := [] }

/-- The first 100 bytes of `mainBody`: two complete records (ending at offset 84)
and the beginning of a third. -/
def truncatedBody : Slice := Slice.ofList (mainBody.elems.take 100)

/-- The slice literal of `main` with the total-count byte of its first record
(offset 27) changed from `04` to `09`. -/
def mismatchBody : Slice := Slice.ofList (mainBody.elems.set 27 0x09)

/-- The frame of `mainBody` with `NoOfTotalIO` of the first record replaced by 9. -/
def mismatchFrame : AVLDataArray :=
  { mainFrame with
    AVLData := (mainFrame.AVLData.take 1).map (fun r => setTotalCount r 0x09)
      ++ mainFrame.AVLData.drop 1 }

/-- A 32-byte frame with one record all of whose tier count bytes are 0. -/
def zeroTierBody : Slice := Slice.ofList (0x08 :: 0x01 :: List.replicate 30 0x00)

/-- The frame encoded by `zeroTierBody`. -/
def zeroTierFrame : AVLDataArray :=
  { CodecID := 0x08, NoOfData := 0x01,
    AVLData := [
      { Timestamp := 0, Priority := 0x00,
        GPSElement := { Longitude := 0, Latitude := 0, Altitude := 0, Angle := 0,
                        Satellites := 0x00, Speed := 0 },
        IOElement := { EventIOID := 0x00, NoOfTotalIO := 0x00,
                       OneByteIO := [], TwoByteIO := [], FourByteIO := [],
                       EightByteIO := [] } }] }

/-! ## Monadic plumbing -/

theorem ok_bind {α β : Type} (a : α) (f : α → Except Fault β) :
    ((Except.ok a : Except Fault α) >>= f) = f a := rfl

theorem error_bind {α β : Type} (e : Fault) (f : α → Except Fault β) :
    ((Except.error e : Except Fault α) >>= f) = .error e := rfl

theorem bind_eq_ok {α β : Type} (x : Except Fault α) (f : α → Except Fault β) (b : β) :
    (x >>= f) = .ok b ↔ ∃ a, x = .ok a ∧ f a = .ok b := by
  cases x with
  | error e => simp [error_bind]
  | ok a => simp [ok_bind]

/-! ## Slices -/

theorem Slice.index_eq_ok (s : Slice) (i : Nat) (b : Byte) :
    s.index i = .ok b ↔ s.elems[i]? = some b := by
  unfold Slice.index
  cases h : s.elems[i]? with
  | none => simp
  | some c => simp

theorem Slice.index_ok_lt (s : Slice) (i : Nat) (b : Byte) (h : s.index i = .ok b) :
    i < s.len := by
  rw [Slice.index_eq_ok] at h
  have := List.getElem?_eq_some_iff.mp h
  exact this.1

theorem Slice.index_of_lt (s : Slice) (i : Nat) (h : i < s.len) :
    ∃ b, s.index i = .ok b ∧ s.elems[i]? = some b := by
  have h2 : i < s.elems.length := h
  exact ⟨s.elems[i], (Slice.index_eq_ok _ _ _).mpr (List.getElem?_eq_getElem h2),
    List.getElem?_eq_getElem h2⟩

theorem Slice.slice_eq_ok (s : Slice) (lo hi : Nat) (w : Slice) :
    s.slice lo hi = .ok w ↔
      lo ≤ hi ∧ hi ≤ s.cap ∧
        w = { elems := (s.backing.drop lo).take (hi - lo), spare := s.backing.drop hi } := by
  unfold Slice.slice
  by_cases h : lo ≤ hi ∧ hi ≤ s.cap
  · rw [if_pos h]
    constructor
    · intro e
      injection e with e
      exact ⟨h.1, h.2, e.symm⟩
    · rintro ⟨_, _, e⟩
      rw [e]
  · rw [if_neg h]
    constructor
    · intro e; cases e
    · rintro ⟨h1, h2, _⟩
      exact absurd ⟨h1, h2⟩ h

/-- A window that lies inside the visible part of a slice holds exactly those
visible bytes. -/
theorem Slice.slice_within (s : Slice) (lo hi : Nat) (h1 : lo ≤ hi) (h2 : hi ≤ s.len) :
    ∃ w, s.slice lo hi = .ok w ∧ w.elems = (s.elems.drop lo).take (hi - lo) ∧
      w.len = hi - lo := by
  have hcap : hi ≤ s.cap := by unfold Slice.cap; unfold Slice.len at h2; omega
  refine ⟨_, (Slice.slice_eq_ok _ _ _ _).mpr ⟨h1, hcap, rfl⟩, ?_, ?_⟩
  · show ((s.elems ++ s.spare).drop lo).take (hi - lo) = (s.elems.drop lo).take (hi - lo)
    unfold Slice.len at h2
    rw [List.drop_append_of_le_length (by omega), List.take_append_of_le_length]
    rw [List.length_drop]; omega
  · show (((s.elems ++ s.spare).drop lo).take (hi - lo)).length = hi - lo
    unfold Slice.len at h2
    rw [List.length_take, List.length_drop, List.length_append]; omega

/-! ## The big-endian decoders of the standard library -/

theorem or_shiftLeft (acc b k : Nat) (h : acc < 2 ^ k) :
    acc ||| (b <<< k) = b * 2 ^ k + acc := by
  rw [Nat.or_comm, Nat.shiftLeft_eq, Nat.mul_comm b, ← Nat.mul_add_lt_is_or h]

theorem shiftLeft_mod (b k w : Nat) (h : b * 2 ^ k < 2 ^ w) :
    (b <<< k) % 2 ^ w = b <<< k := by
  rw [Nat.shiftLeft_eq]; exact Nat.mod_eq_of_lt h

theorem bigEndianUint16_cons (b0 b1 : Byte) (rest spare : List Byte) :
    bigEndianUint16 ⟨b0 :: b1 :: rest, spare⟩ = .ok (b0.val * 2 ^ 8 + b1.val) := by
  have h0 := b0.isLt
  have h1 := b1.isLt
  have i0 : Slice.index ⟨b0 :: b1 :: rest, spare⟩ 0 = .ok b0 := by simp [Slice.index]
  have i1 : Slice.index ⟨b0 :: b1 :: rest, spare⟩ 1 = .ok b1 := by simp [Slice.index]
  simp only [bigEndianUint16, i0, i1, ok_bind]
  show Except.ok _ = _
  rw [shiftLeft_mod b0.val 8 16 (by omega), or_shiftLeft b1.val b0.val 8 (by omega)]

theorem bigEndianUint32_cons (b0 b1 b2 b3 : Byte) (rest spare : List Byte) :
    bigEndianUint32 ⟨b0 :: b1 :: b2 :: b3 :: rest, spare⟩ =
      .ok (b0.val * 2 ^ 24 + b1.val * 2 ^ 16 + b2.val * 2 ^ 8 + b3.val) := by
  have h0 := b0.isLt
  have h1 := b1.isLt
  have h2 := b2.isLt
  have h3 := b3.isLt
  have i0 : Slice.index ⟨b0 :: b1 :: b2 :: b3 :: rest, spare⟩ 0 = .ok b0 := by
    simp [Slice.index]
  have i1 : Slice.index ⟨b0 :: b1 :: b2 :: b3 :: rest, spare⟩ 1 = .ok b1 := by
    simp [Slice.index]
  have i2 : Slice.index ⟨b0 :: b1 :: b2 :: b3 :: rest, spare⟩ 2 = .ok b2 := by
    simp [Slice.index]
  have i3 : Slice.index ⟨b0 :: b1 :: b2 :: b3 :: rest, spare⟩ 3 = .ok b3 := by
    simp [Slice.index]
  simp only [bigEndianUint32, i0, i1, i2, i3, ok_bind]
  show Except.ok _ = _
  rw [shiftLeft_mod b2.val 8 32 (by omega), shiftLeft_mod b1.val 16 32 (by omega),
    shiftLeft_mod b0.val 24 32 (by omega),
    or_shiftLeft b3.val b2.val 8 (by omega), or_shiftLeft _ b1.val 16 (by omega),
    or_shiftLeft _ b0.val 24 (by omega)]
  refine congrArg Except.ok ?_
  omega

theorem bigEndianUint64_cons (b0 b1 b2 b3 b4 b5 b6 b7 : Byte) (rest spare : List Byte) :
    bigEndianUint64 ⟨b0 :: b1 :: b2 :: b3 :: b4 :: b5 :: b6 :: b7 :: rest, spare⟩ =
      .ok (b0.val * 2 ^ 56 + b1.val * 2 ^ 48 + b2.val * 2 ^ 40 + b3.val * 2 ^ 32
        + b4.val * 2 ^ 24 + b5.val * 2 ^ 16 + b6.val * 2 ^ 8 + b7.val) := by
  have h0 := b0.isLt
  have h1 := b1.isLt
  have h2 := b2.isLt
  have h3 := b3.isLt
  have h4 := b4.isLt
  have h5 := b5.isLt
  have h6 := b6.isLt
  have h7 := b7.isLt
  have i0 : Slice.index ⟨b0 :: b1 :: b2 :: b3 :: b4 :: b5 :: b6 :: b7 :: rest, spare⟩ 0
      = .ok b0 := by simp [Slice.index]
  have i1 : Slice.index ⟨b0 :: b1 :: b2 :: b3 :: b4 :: b5 :: b6 :: b7 :: rest, spare⟩ 1
      = .ok b1 := by simp [Slice.index]
  have i2 : Slice.index ⟨b0 :: b1 :: b2 :: b3 :: b4 :: b5 :: b6 :: b7 :: rest, spare⟩ 2
      = .ok b2 := by simp [Slice.index]
  have i3 : Slice.index ⟨b0 :: b1 :: b2 :: b3 :: b4 :: b5 :: b6 :: b7 :: rest, spare⟩ 3
      = .ok b3 := by simp [Slice.index]
  have i4 : Slice.index ⟨b0 :: b1 :: b2 :: b3 :: b4 :: b5 :: b6 :: b7 :: rest, spare⟩ 4
      = .ok b4 := by simp [Slice.index]
  have i5 : Slice.index ⟨b0 :: b1 :: b2 :: b3 :: b4 :: b5 :: b6 :: b7 :: rest, spare⟩ 5
      = .ok b5 := by simp [Slice.index]
  have i6 : Slice.index ⟨b0 :: b1 :: b2 :: b3 :: b4 :: b5 :: b6 :: b7 :: rest, spare⟩ 6
      = .ok b6 := by simp [Slice.index]
  have i7 : Slice.index ⟨b0 :: b1 :: b2 :: b3 :: b4 :: b5 :: b6 :: b7 :: rest, spare⟩ 7
      = .ok b7 := by simp [Slice.index]
  simp only [bigEndianUint64, i0, i1, i2, i3, i4, i5, i6, i7, ok_bind]
  show Except.ok _ = _
  rw [shiftLeft_mod b6.val 8 64 (by omega), shiftLeft_mod b5.val 16 64 (by omega),
    shiftLeft_mod b4.val 24 64 (by omega), shiftLeft_mod b3.val 32 64 (by omega),
    shiftLeft_mod b2.val 40 64 (by omega), shiftLeft_mod b1.val 48 64 (by omega),
    shiftLeft_mod b0.val 56 64 (by omega),
    or_shiftLeft b7.val b6.val 8 (by omega), or_shiftLeft _ b5.val 16 (by omega),
    or_shiftLeft _ b4.val 24 (by omega), or_shiftLeft _ b3.val 32 (by omega),
    or_shiftLeft _ b2.val 40 (by omega), or_shiftLeft _ b1.val 48 (by omega),
    or_shiftLeft _ b0.val 56 (by omega)]
  refine congrArg Except.ok ?_
  omega

/-- A list of known length `n + 1` is a head followed by a list of length `n`. -/
theorem list_length_succ {α : Type} (l : List α) (n : Nat) (h : l.length = n + 1) :
    ∃ a t, l = a :: t ∧ t.length = n := by
  cases l with
  | nil => simp at h
  | cons a t => exact ⟨a, t, rfl, by simpa using h⟩

theorem bigEndianUint16_window (win : Slice) (h : win.len = 2) :
    bigEndianUint16 win = .ok (bigEndianValue win.elems) := by
  obtain ⟨elems, spare⟩ := win
  obtain ⟨b0, t0, rfl, h0⟩ := list_length_succ elems 1 h
  obtain ⟨b1, t1, rfl, h1⟩ := list_length_succ t0 0 h0
  obtain rfl := List.length_eq_zero.mp h1
  rw [bigEndianUint16_cons]
  refine congrArg Except.ok ?_
  simp only [bigEndianValue, List.foldl]
  omega

theorem bigEndianUint32_window (win : Slice) (h : win.len = 4) :
    bigEndianUint32 win = .ok (bigEndianValue win.elems) := by
  obtain ⟨elems, spare⟩ := win
  obtain ⟨b0, t0, rfl, h0⟩ := list_length_succ elems 3 h
  obtain ⟨b1, t1, rfl, h1⟩ := list_length_succ t0 2 h0
  obtain ⟨b2, t2, rfl, h2⟩ := list_length_succ t1 1 h1
  obtain ⟨b3, t3, rfl, h3⟩ := list_length_succ t2 0 h2
  obtain rfl := List.length_eq_zero.mp h3
  rw [bigEndianUint32_cons]
  refine congrArg Except.ok ?_
  simp only [bigEndianValue, List.foldl]
  omega

theorem bigEndianUint64_window (win : Slice) (h : win.len = 8) :
    bigEndianUint64 win = .ok (bigEndianValue win.elems) := by
  obtain ⟨elems, spare⟩ := win
  obtain ⟨b0, t0, rfl, h0⟩ := list_length_succ elems 7 h
  obtain ⟨b1, t1, rfl, h1⟩ := list_length_succ t0 6 h0
  obtain ⟨b2, t2, rfl, h2⟩ := list_length_succ t1 5 h1
  obtain ⟨b3, t3, rfl, h3⟩ := list_length_succ t2 4 h2
  obtain ⟨b4, t4, rfl, h4⟩ := list_length_succ t3 3 h3
  obtain ⟨b5, t5, rfl, h5⟩ := list_length_succ t4 2 h4
  obtain ⟨b6, t6, rfl, h6⟩ := list_length_succ t5 1 h5
  obtain ⟨b7, t7, rfl, h7⟩ := list_length_succ t6 0 h6
  obtain rfl := List.length_eq_zero.mp h7
  rw [bigEndianUint64_cons]
  refine congrArg Except.ok ?_
  simp only [bigEndianValue, List.foldl]
  omega

/-! ## The tier loops -/

/-- The loop of `parseOneByteIO`, started at index `i` of a slice that holds
`m` further pairs, appends these `m` pairs in order and stops. -/
theorem parseOneByteIOLoop_spec (data : Slice) :
    ∀ (m fuel i : Nat) (acc : List (Byte × Byte)), data.len = i + 2 * m → m ≤ fuel →
      ∃ out, parseOneByteIOLoop data fuel i acc = .ok (acc ++ out) ∧ out.length = m ∧
        ∀ j, j < m → ∃ k v, data.index (i + 2 * j) = .ok k ∧
          data.index (i + 2 * j + 1) = .ok v ∧ out[j]? = some (k, v) := by
  intro m
  induction m with
  | zero =>
    intro fuel i acc hlen _
    refine ⟨[], ?_, rfl, fun j hj => absurd hj (Nat.not_lt_zero j)⟩
    unfold parseOneByteIOLoop
    rw [if_neg (by omega)]
    simp
  | succ m ih =>
    intro fuel i acc hlen hfuel
    obtain ⟨fuel, rfl⟩ : ∃ f, fuel = f + 1 := ⟨fuel - 1, by omega⟩
    obtain ⟨k, hk, _⟩ := Slice.index_of_lt data i (by omega)
    obtain ⟨v, hv, _⟩ := Slice.index_of_lt data (i + 1) (by omega)
    obtain ⟨out, hout, hlen2, hent⟩ := ih fuel (i + 2) (acc ++ [(k, v)]) (by omega) (by omega)
    refine ⟨(k, v) :: out, ?_, by simp [hlen2], ?_⟩
    · unfold parseOneByteIOLoop
      rw [if_pos (by omega)]
      simp only [hk, hv, ok_bind]
      rw [hout]
      simp
    · intro j hj
      cases j with
      | zero => exact ⟨k, v, by simpa using hk, by simpa using hv, by simp⟩
      | succ j =>
        obtain ⟨k2, v2, h1, h2, h3⟩ := hent j (by omega)
        refine ⟨k2, v2, ?_, ?_, by simpa using h3⟩
        · rw [← h1]; congr 1; omega
        · rw [← h2]; congr 1; omega

/-- The loop of a wide tier parser, started at index `i` of a slice that holds
`m` further groups of `1 + w` bytes, appends these `m` pairs in order. -/
theorem parseWideIOLoop_spec (w : Nat) (dec : Slice → Except Fault Nat) (data : Slice)
    (hdec : ∀ win : Slice, win.len = w → dec win = .ok (bigEndianValue win.elems)) :
    ∀ (m fuel i : Nat) (acc : List (Byte × Nat)), data.len = i + (1 + w) * m → m ≤ fuel →
      ∃ out, parseWideIOLoop w dec data fuel i acc = .ok (acc ++ out) ∧ out.length = m ∧
        ∀ j, j < m → ∃ k, data.index (i + (1 + w) * j) = .ok k ∧
          out[j]? = some (k, bigEndianValue ((data.elems.drop (i + (1 + w) * j + 1)).take w)) := by
  intro m
  induction m with
  | zero =>
    intro fuel i acc hlen _
    refine ⟨[], ?_, rfl, fun j hj => absurd hj (Nat.not_lt_zero j)⟩
    unfold parseWideIOLoop
    rw [if_neg (by omega)]
    simp
  | succ m ih =>
    intro fuel i acc hlen hfuel
    obtain ⟨fuel, rfl⟩ : ∃ f, fuel = f + 1 := ⟨fuel - 1, by omega⟩
    have hstep : (1 + w) * (m + 1) = (1 + w) * m + (1 + w) := by ring
    obtain ⟨k, hk, _⟩ := Slice.index_of_lt data i (by omega)
    obtain ⟨win, hwin, hwe, hwl⟩ := Slice.slice_within data (i + 1) (i + 1 + w) (by omega)
      (by omega)
    have hwl2 : win.len = w := by omega
    have hval := hdec win hwl2
    rw [hwe] at hval
    have hw2 : i + 1 + w - (i + 1) = w := by omega
    rw [hw2] at hval
    obtain ⟨out, hout, hlen2, hent⟩ :=
      ih fuel (i + 1 + w) (acc ++ [(k, bigEndianValue ((data.elems.drop (i + 1)).take w))])
        (by omega) (by omega)
    refine ⟨(k, bigEndianValue ((data.elems.drop (i + 1)).take w)) :: out, ?_,
      by simp [hlen2], ?_⟩
    · unfold parseWideIOLoop
      rw [if_pos (by omega)]
      simp only [hk, hwin, hval, ok_bind]
      rw [hout]
      simp
    · intro j hj
      cases j with
      | zero => exact ⟨k, by simpa using hk, by simp⟩
      | succ j =>
        obtain ⟨k2, h1, h3⟩ := hent j (by omega)
        have e : i + 1 + w + (1 + w) * j = i + (1 + w) * (j + 1) := by ring
        rw [e] at h1 h3
        exact ⟨k2, h1, by simpa using h3⟩

theorem Slice.slice_ok_len (s : Slice) (lo hi : Nat) (w : Slice) (h : s.slice lo hi = .ok w) :
    w.len = hi - lo := by
  obtain ⟨h1, h2, rfl⟩ := (Slice.slice_eq_ok _ _ _ _).mp h
  show (((s.elems ++ s.spare).drop lo).take (hi - lo)).length = hi - lo
  unfold Slice.cap at h2
  rw [List.length_take, List.length_drop, List.length_append]; omega

theorem parseOneByteIO_spec (data : Slice) (n : Nat) (h : data.len = 2 * n) :
    ∃ out, parseOneByteIO data = .ok out ∧ out.length = n ∧
      ∀ i, i < n → ∃ k v, data.index (2 * i) = .ok k ∧ data.index (2 * i + 1) = .ok v ∧
        out[i]? = some (k, v) := by
  obtain ⟨out, h1, h2, h3⟩ :=
    parseOneByteIOLoop_spec data n data.len 0 [] (by omega) (by omega)
  refine ⟨out, by simpa [ parseOneByteIO] using h1, h2, ?_⟩
  intro i hi
  obtain ⟨k, v, a, b, c⟩ := h3 i hi
  exact ⟨k, v, by simpa using a, by simpa using b, c⟩

theorem parseWideIO_spec (w : Nat) (dec : Slice → Except Fault Nat) (data : Slice) (n : Nat)
    (hdec : ∀ win : Slice, win.len = w → dec win = .ok (bigEndianValue win.elems))
    (h : data.len = n * (1 + w)) :
    ∃ out, parseWideIOLoop w dec data data.len 0 [] = .ok out ∧ out.length = n ∧
      ∀ i, i < n → ∃ k, data.index (i * (1 + w)) = .ok k ∧
        out[i]? = some (k, bigEndianValue ((data.elems.drop (i * (1 + w) + 1)).take w)) := by
  have hle : n ≤ n * (1 + w) := Nat.le_mul_of_pos_right n (by omega)
  obtain ⟨out, h1, h2, h3⟩ :=
    parseWideIOLoop_spec w dec data hdec n data.len 0 []
      (by rw [h, Nat.mul_comm]; omega) (by omega)
  refine ⟨out, by simpa using h1, h2, ?_⟩
  intro i hi
  obtain ⟨k, a, c⟩ := h3 i hi
  have e : 0 + (1 + w) * i = i * (1 + w) := by rw [Nat.mul_comm]; omega
  rw [e] at a c
  exact ⟨k, a, c⟩

/-! ## Timestamp and GPS windows -/

theorem toInt64_of_lt (u : Nat) (h : u < 2 ^ 63) : toInt64 u = (u : Int) := by
  unfold toInt64
  have e : u % 2 ^ 64 = u := Nat.mod_eq_of_lt (by omega)
  rw [e, if_pos h]

theorem parseTimestamp_cons (d0 d1 d2 d3 d4 d5 d6 d7 : Byte) (rest spare : List Byte) :
    parseTimestamp ⟨d0 :: d1 :: d2 :: d3 :: d4 :: d5 :: d6 :: d7 :: rest, spare⟩ =
      .ok (toInt64 (d0.val * 2 ^ 56 + d1.val * 2 ^ 48 + d2.val * 2 ^ 40 + d3.val * 2 ^ 32
        + d4.val * 2 ^ 24 + d5.val * 2 ^ 16 + d6.val * 2 ^ 8 + d7.val)) := by
  unfold parseTimestamp
  rw [bigEndianUint64_cons, ok_bind]
  rfl

theorem parseGPSElement_cons (e0 e1 e2 e3 e4 e5 e6 e7 e8 e9 e10 e11 e12 e13 e14 : Byte)
    (spare : List Byte) :
    parseGPSElement ⟨[e0, e1, e2, e3, e4, e5, e6, e7, e8, e9, e10, e11, e12, e13, e14], spare⟩ =
      .ok { Longitude := e0.val * 2 ^ 24 + e1.val * 2 ^ 16 + e2.val * 2 ^ 8 + e3.val,
            Latitude := e4.val * 2 ^ 24 + e5.val * 2 ^ 16 + e6.val * 2 ^ 8 + e7.val,
            Altitude := e8.val * 2 ^ 8 + e9.val,
            Angle := e10.val * 2 ^ 8 + e11.val,
            Satellites := e12,
            Speed := e13.val * 2 ^ 8 + e14.val } := by
  have s1 : Slice.slice ⟨[e0, e1, e2, e3, e4, e5, e6, e7, e8, e9, e10, e11, e12, e13, e14], spare⟩
      0 4 = .ok ⟨[e0, e1, e2, e3], e4 :: e5 :: e6 :: e7 :: e8 :: e9 :: e10 :: e11 :: e12 :: e13
        :: e14 :: spare⟩ := by
    simp [Slice.slice, Slice.cap, Slice.backing]
    omega
  have s2 : Slice.slice ⟨[e0, e1, e2, e3, e4, e5, e6, e7, e8, e9, e10, e11, e12, e13, e14], spare⟩
      4 8 = .ok ⟨[e4, e5, e6, e7], e8 :: e9 :: e10 :: e11 :: e12 :: e13 :: e14 :: spare⟩ := by
    simp [Slice.slice, Slice.cap, Slice.backing]
    omega
  have s3 : Slice.slice ⟨[e0, e1, e2, e3, e4, e5, e6, e7, e8, e9, e10, e11, e12, e13, e14], spare⟩
      8 10 = .ok ⟨[e8, e9], e10 :: e11 :: e12 :: e13 :: e14 :: spare⟩ := by
    simp [Slice.slice, Slice.cap, Slice.backing]
    omega
  have s4 : Slice.slice ⟨[e0, e1, e2, e3, e4, e5, e6, e7, e8, e9, e10, e11, e12, e13, e14], spare⟩
      10 12 = .ok ⟨[e10, e11], e12 :: e13 :: e14 :: spare⟩ := by
    simp [Slice.slice, Slice.cap, Slice.backing]
    omega
  have s5 : Slice.index ⟨[e0, e1, e2, e3, e4, e5, e6, e7, e8, e9, e10, e11, e12, e13, e14], spare⟩
      12 = .ok e12 := by
    simp [Slice.index]
  have s6 : Slice.slice ⟨[e0, e1, e2, e3, e4, e5, e6, e7, e8, e9, e10, e11, e12, e13, e14], spare⟩
      13 15 = .ok ⟨[e13, e14], spare⟩ := by
    simp [Slice.slice, Slice.cap, Slice.backing]
  unfold parseGPSElement
  simp only [s1, s2, s3, s4, s5, s6, ok_bind, bigEndianUint32_cons, bigEndianUint16_cons]
  rfl

theorem pure_eq_ok {α : Type} (a b : α) : (pure a : Except Fault α) = .ok b ↔ a = b := by
  constructor
  · intro h; injection h
  · intro h; rw [h]; rfl

theorem index_congr {body : Slice} {i j : Nat} {b : Byte} (h : body.index i = .ok b)
    (e : j = i) : body.index j = .ok b := by
  rw [e]; exact h

theorem slice_bind_congr {α : Type} {body w : Slice} {lo hi lo2 hi2 : Nat}
    {f : Slice → Except Fault α} {v : α}
    (h1 : body.slice lo hi = .ok w) (h2 : f w = .ok v) (e1 : lo2 = lo) (e2 : hi2 = hi) :
    (body.slice lo2 hi2 >>= f) = .ok v := by
  rw [e1, e2, h1, ok_bind]; exact h2

theorem parseOneByteIO_length (body w : Slice) (lo hi n : Nat) (out : List (Byte × Byte))
    (h1 : body.slice lo hi = .ok w) (h2 : parseOneByteIO w = .ok out) (e : hi = lo + n * 2) :
    out.length = n := by
  have hl := Slice.slice_ok_len _ _ _ _ h1
  obtain ⟨out2, h3, h4, _⟩ := parseOneByteIO_spec w n (by omega)
  rw [h2] at h3
  injection h3 with h3
  rw [h3]; exact h4

theorem parseWideIO_length (w : Nat) (dec : Slice → Except Fault Nat) (body win : Slice)
    (lo hi n : Nat) (out : List (Byte × Nat))
    (hdec : ∀ x : Slice, x.len = w → dec x = .ok (bigEndianValue x.elems))
    (h1 : body.slice lo hi = .ok win)
    (h2 : parseWideIOLoop w dec win win.len 0 [] = .ok out) (e : hi = lo + n * (1 + w)) :
    out.length = n := by
  have hl := Slice.slice_ok_len _ _ _ _ h1
  obtain ⟨out2, h3, h4, _⟩ := parseWideIO_spec w dec win n hdec (by omega)
  rw [h2] at h3
  injection h3 with h3
  rw [h3]; exact h4

/-- What a successful iteration of the loop of `Parse` has read, and where. -/
theorem parseRecord_spec (body : Slice) (s : Nat) (r : AVLData) (next : Nat)
    (h : parseRecord body s = .ok (r, next)) :
    ∃ n1 n2 n4 n8 : Byte,
      (body.slice s (s + 8) >>= parseTimestamp) = .ok r.Timestamp ∧
      body.index (s + 8) = .ok r.Priority ∧
      (body.slice (s + 9) (s + 24) >>= parseGPSElement) = .ok r.GPSElement ∧
      body.index (s + 24) = .ok r.IOElement.EventIOID ∧
      body.index (s + 25) = .ok r.IOElement.NoOfTotalIO ∧
      body.index (s + 26) = .ok n1 ∧
      (body.slice (s + 27) (s + 27 + 2 * n1.val) >>= parseOneByteIO)
        = .ok r.IOElement.OneByteIO ∧
      body.index (s + 27 + 2 * n1.val) = .ok n2 ∧
      (body.slice (s + 27 + 2 * n1.val + 1) (s + 27 + 2 * n1.val + 1 + 3 * n2.val)
        >>= parseTwoByteIO) = .ok r.IOElement.TwoByteIO ∧
      body.index (s + 27 + 2 * n1.val + 1 + 3 * n2.val) = .ok n4 ∧
      (body.slice (s + 27 + 2 * n1.val + 1 + 3 * n2.val + 1)
        (s + 27 + 2 * n1.val + 1 + 3 * n2.val + 1 + 5 * n4.val)
        >>= parseFourByteIO) = .ok r.IOElement.FourByteIO ∧
      body.index (s + 27 + 2 * n1.val + 1 + 3 * n2.val + 1 + 5 * n4.val) = .ok n8 ∧
      (body.slice (s + 27 + 2 * n1.val + 1 + 3 * n2.val + 1 + 5 * n4.val + 1)
        (s + 27 + 2 * n1.val + 1 + 3 * n2.val + 1 + 5 * n4.val + 1 + 9 * n8.val)
        >>= parseEightByteIO) = .ok r.IOElement.EightByteIO ∧
      r.IOElement.OneByteIO.length = n1.val ∧
      r.IOElement.TwoByteIO.length = n2.val ∧
      r.IOElement.FourByteIO.length = n4.val ∧
      r.IOElement.EightByteIO.length = n8.val ∧
      next = s + (8 + 1 + 15 + 2 + 4 + 2 * n1.val + 3 * n2.val + 5 * n4.val + 9 * n8.val) := by
  unfold parseRecord at h
  simp only [bind_eq_ok, pure_eq_ok, Prod.mk.injEq] at h
  obtain ⟨tsw, h1, ts, h2, pr, h3, gw, h4, g, h5, ev, h6, tot, h7, n1, h8, w1, h9, o1, h10,
    n2, h11, w2, h12, o2, h13, n4, h14, w4, h15, o4, h16, n8, h17, w8, h18, o8, h19, hr, hn⟩ := h
  subst hr
  refine ⟨n1, n2, n4, n8, slice_bind_congr h1 h2 rfl rfl, h3,
    slice_bind_congr h4 h5 (by omega) (by omega), index_congr h6 (by omega),
    index_congr h7 (by omega), index_congr h8 (by omega),
    slice_bind_congr h9 h10 (by omega) (by omega), index_congr h11 (by omega),
    slice_bind_congr h12 h13 (by omega) (by omega), index_congr h14 (by omega),
    slice_bind_congr h15 h16 (by omega) (by omega), index_congr h17 (by omega),
    slice_bind_congr h18 h19 (by omega) (by omega),
    parseOneByteIO_length _ _ _ _ _ _ h9 h10 rfl,
    parseWideIO_length 2 _ _ _ _ _ _ _ bigEndianUint16_window h12 h13 (by omega),
    parseWideIO_length 4 _ _ _ _ _ _ _ bigEndianUint32_window h15 h16 (by omega),
    parseWideIO_length 8 _ _ _ _ _ _ _ bigEndianUint64_window h18 h19 (by omega), ?_⟩
  omega

theorem recordStart_append (l m : List AVLData) :
    ∀ k, k ≤ l.length → recordStart (l ++ m) k = recordStart l k := by
  intro k
  induction k with
  | zero => intro _; rfl
  | succ k ih =>
    intro hk
    have hlt : k < l.length := by omega
    simp only [recordStart]
    rw [ih (by omega), List.getElem?_append_left hlt]

theorem parseRecord_next (body : Slice) (s : Nat) (r : AVLData) (next : Nat)
    (h : parseRecord body s = .ok (r, next)) : next = s + recordSize r := by
  obtain ⟨n1, n2, n4, n8, _, _, _, _, _, _, _, _, _, _, _, _, _, l1, l2, l4, l8, hn⟩ :=
    parseRecord_spec body s r next h
  unfold recordSize
  rw [l1, l2, l4, l8]
  exact hn

/-- Invariant of the loop of `Parse`: the cursor is the start offset the record
sizes assign to the next record, and every record appended so far is what one
iteration decodes at its own start offset. -/
theorem parseLoop_spec (body : Slice) :
    ∀ (n s : Nat) (acc recs : List AVLData) (c : Nat),
      parseLoop body n s acc = .ok (recs, c) →
      s = recordStart acc acc.length →
      (∀ k r, acc[k]? = some r →
        parseRecord body (recordStart acc k) = .ok (r, recordStart acc (k + 1))) →
      recs.length = acc.length + n ∧ c = recordStart recs recs.length ∧
        (∀ k r, recs[k]? = some r →
          parseRecord body (recordStart recs k) = .ok (r, recordStart recs (k + 1))) := by
  intro n
  induction n with
  | zero =>
    intro s acc recs c h hs hacc
    simp only [parseLoop] at h
    injection h with h
    injection h with h1 h2
    subst h1 h2
    exact ⟨rfl, hs, hacc⟩
  | succ n ih =>
    intro s acc recs c h hs hacc
    simp only [parseLoop, bind_eq_ok] at h
    obtain ⟨⟨r, next⟩, h1, h2⟩ := h
    simp only at h2
    have hnext := parseRecord_next body s r next h1
    have hlast : (acc ++ [r])[acc.length]? = some r := by simp
    have hstart : recordStart (acc ++ [r]) acc.length = s := by
      rw [recordStart_append _ _ _ (Nat.le_refl _)]; exact hs.symm
    have hsucc : recordStart (acc ++ [r]) (acc.length + 1) = next := by
      simp only [recordStart]
      rw [hstart, hlast, hnext]
    obtain ⟨a, b, d⟩ := ih next (acc ++ [r]) recs c h2
      (by rw [List.length_append, List.length_singleton, hsucc])
      (by
        intro k x hx
        by_cases hk : k < acc.length
        · rw [List.getElem?_append_left hk] at hx
          have := hacc k x hx
          rw [recordStart_append _ _ _ (by omega), recordStart_append _ _ _ (by omega)]
          exact this
        · have hk2 : k = acc.length := by
            have := (List.getElem?_eq_some_iff.mp hx).1
            rw [List.length_append, List.length_singleton] at this
            omega
          subst hk2
          rw [hlast] at hx
          injection hx with hx
          subst hx
          rw [hstart, hsucc]
          exact h1)
    refine ⟨?_, b, d⟩
    rw [a, List.length_append, List.length_singleton]
    omega

theorem parseWithCursor_spec (body : Slice) (frame : AVLDataArray) (c : Nat)
    (h : parseWithCursor body = .ok (frame, c)) :
    body.index 0 = .ok frame.CodecID ∧ body.index 1 = .ok frame.NoOfData ∧
      frame.AVLData.length = frame.NoOfData.val ∧
      c = recordStart frame.AVLData frame.AVLData.length ∧
      (∀ k r, frame.AVLData[k]? = some r →
        parseRecord body (recordStart frame.AVLData k)
          = .ok (r, recordStart frame.AVLData (k + 1))) := by
  unfold parseWithCursor at h
  simp only [bind_eq_ok, pure_eq_ok, Prod.mk.injEq] at h
  obtain ⟨codec, h0, n, h1, ⟨recs, cur⟩, h2, h3, h4⟩ := h
  simp only at h3 h4
  subst h3 h4
  obtain ⟨a, b, d⟩ := parseLoop_spec body n.val 2 [] recs cur h2 rfl
    (by intro k r hk; simp at hk)
  exact ⟨h0, h1, by simpa using a, b, d⟩

theorem Parse_eq_ok (body : Slice) (frame : AVLDataArray) :
    Parse body = .ok frame ↔ ∃ c, parseWithCursor body = .ok (frame, c) := by
  unfold Parse
  simp only [bind_eq_ok, pure_eq_ok]
  constructor
  · rintro ⟨⟨f, c⟩, h1, h2⟩
    simp only at h2
    subst h2
    exact ⟨c, h1⟩
  · rintro ⟨c, h⟩
    exact ⟨(frame, c), h, rfl⟩

theorem recordStart_eq_sum (recs : List AVLData) :
    ∀ k, recordStart recs k = 2 + ((recs.take k).map recordSize).sum := by
  intro k
  induction k with
  | zero => simp [recordStart]
  | succ k ih =>
    simp only [recordStart]
    rw [ih, List.take_succ]
    cases h : recs[k]? with
    | none => simp
    | some r => simp; omega

theorem eq_ok_of_toOption {α : Type} (x : Except Fault α) (a : α)
    (h : x.toOption = some a) : x = .ok a := by
  cases x with
  | error e => simp [Except.toOption] at h
  | ok b =>
    simp only [Except.toOption, Option.some.injEq] at h
    rw [h]

/-- The run of `Parse` on the slice literal of `main`. -/
theorem parseWithCursor_mainBody : parseWithCursor mainBody = .ok (mainFrame, 166) :=
  eq_ok_of_toOption _ _ (by decide!)

theorem Parse_mainBody : Parse mainBody = .ok mainFrame :=
  (Parse_eq_ok _ _).mpr ⟨166, parseWithCursor_mainBody⟩

theorem recordStart_succ (recs : List AVLData) (k : Nat) (r : AVLData)
    (h : recs[k]? = some r) : recordStart recs (k + 1) = recordStart recs k + recordSize r := by
  simp only [recordStart, h]

/-! ## The loop budget of the model is never exhausted -/

theorem noFuel_bind {α β : Type} (x : Except Fault α) (f : α → Except Fault β)
    (hx : x ≠ .error .outOfFuel) (hf : ∀ a, f a ≠ .error .outOfFuel) :
    (x >>= f) ≠ .error .outOfFuel := by
  cases x with
  | error e =>
    rw [error_bind]
    intro h
    injection h with h
    exact hx (by rw [h])
  | ok a =>
    rw [ok_bind]
    exact hf a

theorem noFuel_pure {α : Type} (a : α) : (pure a : Except Fault α) ≠ .error .outOfFuel := by
  intro h; cases h

theorem noFuel_index (s : Slice) (i : Nat) : s.index i ≠ .error .outOfFuel := by
  unfold Slice.index
  cases s.elems[i]? with
  | none => intro h; cases h
  | some b => intro h; cases h

theorem noFuel_slice (s : Slice) (lo hi : Nat) : s.slice lo hi ≠ .error .outOfFuel := by
  unfold Slice.slice
  split
  · intro h; cases h
  · intro h; cases h

theorem noFuel_bigEndianUint16 (b : Slice) : bigEndianUint16 b ≠ .error .outOfFuel := by
  unfold bigEndianUint16
  repeat first
    | exact noFuel_index _ _
    | exact noFuel_pure _
    | refine noFuel_bind _ _ ?_ ?_
    | intro _

theorem noFuel_bigEndianUint32 (b : Slice) : bigEndianUint32 b ≠ .error .outOfFuel := by
  unfold bigEndianUint32
  repeat first
    | exact noFuel_index _ _
    | exact noFuel_pure _
    | refine noFuel_bind _ _ ?_ ?_
    | intro _

theorem noFuel_bigEndianUint64 (b : Slice) : bigEndianUint64 b ≠ .error .outOfFuel := by
  unfold bigEndianUint64
  repeat first
    | exact noFuel_index _ _
    | exact noFuel_pure _
    | refine noFuel_bind _ _ ?_ ?_
    | intro _

theorem noFuel_parseOneByteIOLoop (data : Slice) :
    ∀ (fuel i : Nat) (acc : List (Byte × Byte)), data.len ≤ i + fuel →
      parseOneByteIOLoop data fuel i acc ≠ .error .outOfFuel := by
  intro fuel
  induction fuel with
  | zero =>
    intro i acc h
    unfold parseOneByteIOLoop
    rw [if_neg (by omega)]
    intro e; cases e
  | succ fuel ih =>
    intro i acc h
    unfold parseOneByteIOLoop
    split
    · refine noFuel_bind _ _ (noFuel_index _ _) ?_
      intro k
      refine noFuel_bind _ _ (noFuel_index _ _) ?_
      intro v
      exact ih _ _ (by omega)
    · intro e; cases e

theorem noFuel_parseWideIOLoop (w : Nat) (dec : Slice → Except Fault Nat) (data : Slice)
    (hdec : ∀ x, dec x ≠ .error .outOfFuel) :
    ∀ (fuel i : Nat) (acc : List (Byte × Nat)), data.len ≤ i + fuel →
      parseWideIOLoop w dec data fuel i acc ≠ .error .outOfFuel := by
  intro fuel
  induction fuel with
  | zero =>
    intro i acc h
    unfold parseWideIOLoop
    rw [if_neg (by omega)]
    intro e; cases e
  | succ fuel ih =>
    intro i acc h
    unfold parseWideIOLoop
    split
    · refine noFuel_bind _ _ (noFuel_index _ _) ?_
      intro k
      refine noFuel_bind _ _ (noFuel_slice _ _ _) ?_
      intro win
      refine noFuel_bind _ _ (hdec _) ?_
      intro v
      exact ih _ _ (by omega)
    · intro e; cases e

theorem noFuel_parseOneByteIO (data : Slice) : parseOneByteIO data ≠ .error .outOfFuel :=
  noFuel_parseOneByteIOLoop data _ _ _ (by omega)

theorem noFuel_parseTwoByteIO (data : Slice) : parseTwoByteIO data ≠ .error .outOfFuel :=
  noFuel_parseWideIOLoop 2 _ data noFuel_bigEndianUint16 _ _ _ (by omega)

theorem noFuel_parseFourByteIO (data : Slice) : parseFourByteIO data ≠ .error .outOfFuel :=
  noFuel_parseWideIOLoop 4 _ data noFuel_bigEndianUint32 _ _ _ (by omega)

theorem noFuel_parseEightByteIO (data : Slice) : parseEightByteIO data ≠ .error .outOfFuel :=
  noFuel_parseWideIOLoop 8 _ data noFuel_bigEndianUint64 _ _ _ (by omega)

theorem noFuel_parseTimestamp (data : Slice) : parseTimestamp data ≠ .error .outOfFuel := by
  unfold parseTimestamp
  refine noFuel_bind _ _ (noFuel_bigEndianUint64 _) ?_
  intro u
  exact noFuel_pure _

theorem noFuel_parseGPSElement (data : Slice) : parseGPSElement data ≠ .error .outOfFuel := by
  unfold parseGPSElement
  repeat first
    | exact noFuel_index _ _
    | exact noFuel_slice _ _ _
    | exact noFuel_pure _
    | exact noFuel_bigEndianUint16 _
    | exact noFuel_bigEndianUint32 _
    | refine noFuel_bind _ _ ?_ ?_
    | intro _

theorem noFuel_parseRecord (body : Slice) (s : Nat) :
    parseRecord body s ≠ .error .outOfFuel := by
  unfold parseRecord
  repeat first
    | exact noFuel_index _ _
    | exact noFuel_slice _ _ _
    | exact noFuel_pure _
    | exact noFuel_parseTimestamp _
    | exact noFuel_parseGPSElement _
    | exact noFuel_parseOneByteIO _
    | exact noFuel_parseTwoByteIO _
    | exact noFuel_parseFourByteIO _
    | exact noFuel_parseEightByteIO _
    | refine noFuel_bind _ _ ?_ ?_
    | intro _

theorem noFuel_parseLoop (body : Slice) :
    ∀ (n s : Nat) (acc : List AVLData), parseLoop body n s acc ≠ .error .outOfFuel := by
  intro n
  induction n with
  | zero =>
    intro s acc
    unfold parseLoop
    intro e; cases e
  | succ n ih =>
    intro s acc
    unfold parseLoop
    refine noFuel_bind _ _ (noFuel_parseRecord _ _) ?_
    rintro ⟨r, next⟩
    exact ih _ _

/-- The only way the model of `Parse` stops without a frame is the run-time
panic for an index or slice bound out of range. -/
theorem Parse_error (body : Slice) (e : Fault) (h : Parse body = .error e) :
    e = .outOfRange := by
  have hne : Parse body ≠ .error .outOfFuel := by
    unfold Parse parseWithCursor
    repeat first
      | exact noFuel_index _ _
      | exact noFuel_pure _
      | exact noFuel_parseLoop _ _ _ _
      | refine noFuel_bind _ _ ?_ ?_
      | intro _
  cases e with
  | outOfRange => rfl
  | outOfFuel => exact absurd h hne

theorem toInt64_of_ge (u : Nat) (h1 : 2 ^ 63 ≤ u) (h2 : u < 2 ^ 64) :
    toInt64 u = (u : Int) - 2 ^ 64 := by
  unfold toInt64
  have e : u % 2 ^ 64 = u := Nat.mod_eq_of_lt h2
  rw [e, if_neg (by omega)]

theorem parseWithCursor_zero (body : Slice) (codec : Byte)
    (h0 : body.index 0 = .ok codec) (h1 : body.index 1 = .ok 0) :
    parseWithCursor body = .ok ({ CodecID := codec, NoOfData := 0, AVLData := [] }, 2) := by
  unfold parseWithCursor
  rw [h0, ok_bind, h1, ok_bind]
  rfl

/-! ## Results depend only on the bytes that are read -/

theorem Slice.backing_getElem?_of_lt (s : Slice) (i : Nat) (h : i < s.len) :
    s.backing[i]? = s.elems[i]? := by
  unfold Slice.backing
  exact List.getElem?_append_left h

theorem Slice.backing_length (s : Slice) : s.backing.length = s.cap := by
  unfold Slice.backing Slice.cap
  exact List.length_append _ _

theorem Slice.len_le_cap (s : Slice) : s.len ≤ s.cap := by
  unfold Slice.len Slice.cap
  omega

/-- An index read gives the same byte in a slice that is at least as long and
holds the same byte at that position of the backing array. -/
theorem index_transfer (body body2 : Slice) (i : Nat) (x : Byte)
    (h : body.index i = .ok x) (hlen : body.len ≤ body2.len)
    (ha : body2.backing[i]? = body.backing[i]?) : body2.index i = .ok x := by
  have hi := Slice.index_ok_lt _ _ _ h
  rw [Slice.index_eq_ok] at h ⊢
  rw [Slice.backing_getElem?_of_lt _ _ hi,
    Slice.backing_getElem?_of_lt _ _ (by omega)] at ha
  rw [ha]; exact h

theorem window_getElem? (l : List Byte) (lo n j : Nat) :
    ((l.drop lo).take n)[j]? = if j < n then l[lo + j]? else none := by
  rw [List.getElem?_take]
  split
  · rw [List.getElem?_drop]
  · rfl

/-- A slice expression gives a window with the same visible bytes in a slice that
holds the same bytes at the positions of the window. -/
theorem slice_transfer (body body2 : Slice) (lo hi : Nat) (w : Slice)
    (h : body.slice lo hi = .ok w) (hlen : body.len ≤ body2.len) (hlo : lo ≤ body.len)
    (ha : ∀ i, lo ≤ i → i < hi → body2.backing[i]? = body.backing[i]?) :
    ∃ w2, body2.slice lo hi = .ok w2 ∧ w2.elems = w.elems := by
  obtain ⟨h1, h2, rfl⟩ := (Slice.slice_eq_ok _ _ _ _).mp h
  have hcap : hi ≤ body2.cap := by
    by_cases hEq : lo = hi
    · have := Slice.len_le_cap body2
      omega
    · have hlt : hi - 1 < body.backing.length := by rw [Slice.backing_length]; omega
      have hsome := ha (hi - 1) (by omega) (by omega)
      rw [List.getElem?_eq_getElem hlt] at hsome
      have := (List.getElem?_eq_some_iff.mp hsome).1
      rw [Slice.backing_length] at this
      omega
  refine ⟨_, (Slice.slice_eq_ok _ _ _ _).mpr ⟨h1, hcap, rfl⟩, ?_⟩
  show (body2.backing.drop lo).take (hi - lo) = (body.backing.drop lo).take (hi - lo)
  apply List.ext_getElem?
  intro j
  rw [window_getElem?, window_getElem?]
  split
  · exact ha (lo + j) (by omega) (by omega)
  · rfl

theorem bigEndianUint16_elems (a b : Slice) (h : a.elems = b.elems) :
    bigEndianUint16 a = bigEndianUint16 b := by
  unfold bigEndianUint16 Slice.index
  rw [h]

theorem bigEndianUint32_elems (a b : Slice) (h : a.elems = b.elems) :
    bigEndianUint32 a = bigEndianUint32 b := by
  unfold bigEndianUint32 Slice.index
  rw [h]

theorem bigEndianUint64_elems (a b : Slice) (h : a.elems = b.elems) :
    bigEndianUint64 a = bigEndianUint64 b := by
  unfold bigEndianUint64 Slice.index
  rw [h]

theorem parseTimestamp_elems (a b : Slice) (h : a.elems = b.elems) :
    parseTimestamp a = parseTimestamp b := by
  unfold parseTimestamp
  rw [bigEndianUint64_elems a b h]

theorem parseOneByteIOLoop_elems (a b : Slice) (h : a.elems = b.elems) :
    ∀ (fuel i : Nat) (acc : List (Byte × Byte)),
      parseOneByteIOLoop a fuel i acc = parseOneByteIOLoop b fuel i acc := by
  have hlen : a.len = b.len := by unfold Slice.len; rw [h]
  have hidx : ∀ i, a.index i = b.index i := by
    intro i; unfold Slice.index; rw [h]
  intro fuel
  induction fuel with
  | zero =>
    intro i acc
    unfold parseOneByteIOLoop
    rw [hlen]
  | succ fuel ih =>
    intro i acc
    unfold parseOneByteIOLoop
    rw [hlen, hidx i, hidx (i + 1)]
    simp only [ih]

theorem parseOneByteIO_elems (a b : Slice) (h : a.elems = b.elems) :
    parseOneByteIO a = parseOneByteIO b := by
  have hlen : a.len = b.len := by unfold Slice.len; rw [h]
  unfold parseOneByteIO
  rw [hlen]
  exact parseOneByteIOLoop_elems a b h _ _ _

theorem parseWideIO_elems (w : Nat) (dec : Slice → Except Fault Nat) (a b : Slice) (n : Nat)
    (hdec : ∀ x : Slice, x.len = w → dec x = .ok (bigEndianValue x.elems))
    (h : a.elems = b.elems) (hn : a.len = n * (1 + w)) :
    parseWideIOLoop w dec a a.len 0 [] = parseWideIOLoop w dec b b.len 0 [] := by
  have hlen : a.len = b.len := by unfold Slice.len; rw [h]
  have hidx : ∀ i, a.index i = b.index i := by
    intro i; unfold Slice.index; rw [h]
  obtain ⟨o1, e1, l1, p1⟩ := parseWideIO_spec w dec a n hdec hn
  obtain ⟨o2, e2, l2, p2⟩ := parseWideIO_spec w dec b n hdec (by omega)
  rw [e1, e2]
  refine congrArg Except.ok ?_
  apply List.ext_getElem?
  intro i
  by_cases hi : i < n
  · obtain ⟨k1, a1, c1⟩ := p1 i hi
    obtain ⟨k2, a2, c2⟩ := p2 i hi
    rw [hidx, a2] at a1
    injection a1 with a1
    rw [c1, c2, a1, h]
  · rw [List.getElem?_eq_none (by omega), List.getElem?_eq_none (by omega)]

theorem parseTwoByteIO_elems (a b : Slice) (n : Nat) (h : a.elems = b.elems)
    (hn : a.len = n * (1 + 2)) : parseTwoByteIO a = parseTwoByteIO b :=
  parseWideIO_elems 2 bigEndianUint16 a b n bigEndianUint16_window h hn

theorem parseFourByteIO_elems (a b : Slice) (n : Nat) (h : a.elems = b.elems)
    (hn : a.len = n * (1 + 4)) : parseFourByteIO a = parseFourByteIO b :=
  parseWideIO_elems 4 bigEndianUint32 a b n bigEndianUint32_window h hn

theorem parseEightByteIO_elems (a b : Slice) (n : Nat) (h : a.elems = b.elems)
    (hn : a.len = n * (1 + 8)) : parseEightByteIO a = parseEightByteIO b :=
  parseWideIO_elems 8 bigEndianUint64 a b n bigEndianUint64_window h hn

theorem parseGPSElement_elems (a b : Slice) (h : a.elems = b.elems) (hn : a.len = 15) :
    parseGPSElement a = parseGPSElement b := by
  obtain ⟨ea, sa⟩ := a
  obtain ⟨eb, sb⟩ := b
  simp only at h
  subst h
  obtain ⟨d0, t0, rfl, h0⟩ := list_length_succ ea 14 hn
  obtain ⟨d1, t1, rfl, h1⟩ := list_length_succ t0 13 h0
  obtain ⟨d2, t2, rfl, h2⟩ := list_length_succ t1 12 h1
  obtain ⟨d3, t3, rfl, h3⟩ := list_length_succ t2 11 h2
  obtain ⟨d4, t4, rfl, h4⟩ := list_length_succ t3 10 h3
  obtain ⟨d5, t5, rfl, h5⟩ := list_length_succ t4 9 h4
  obtain ⟨d6, t6, rfl, h6⟩ := list_length_succ t5 8 h5
  obtain ⟨d7, t7, rfl, h7⟩ := list_length_succ t6 7 h6
  obtain ⟨d8, t8, rfl, h8⟩ := list_length_succ t7 6 h7
  obtain ⟨d9, t9, rfl, h9⟩ := list_length_succ t8 5 h8
  obtain ⟨d10, t10, rfl, h10⟩ := list_length_succ t9 4 h9
  obtain ⟨d11, t11, rfl, h11⟩ := list_length_succ t10 3 h10
  obtain ⟨d12, t12, rfl, h12⟩ := list_length_succ t11 2 h11
  obtain ⟨d13, t13, rfl, h13⟩ := list_length_succ t12 1 h12
  obtain ⟨d14, t14, rfl, h14⟩ := list_length_succ t13 0 h13
  obtain rfl := List.length_eq_zero.mp h14
  rw [parseGPSElement_cons, parseGPSElement_cons]

/-- One iteration of the loop of `Parse` reads the bytes `body[s .. next)` only,
and the byte at `s + 25` goes nowhere but into `NoOfTotalIO`: in a slice that is
at least as long and holds the same bytes there, except perhaps at `s + 25`, the
iteration returns the same record, up to `NoOfTotalIO`, and the same cursor. -/
theorem parseRecord_congr (body body2 : Slice) (s : Nat) (r : AVLData) (next : Nat) (v : Byte)
    (h : parseRecord body s = .ok (r, next))
    (hlen : body.len ≤ body2.len)
    (ha : ∀ i, s ≤ i → i < next → i ≠ s + 25 → body2.backing[i]? = body.backing[i]?)
    (hv : body2.index (s + 25) = .ok v) :
    parseRecord body2 s =
      .ok ({ r with IOElement := { r.IOElement with NoOfTotalIO := v } }, next) := by
  unfold parseRecord at h
  simp only [bind_eq_ok, pure_eq_ok, Prod.mk.injEq] at h
  obtain ⟨tsw, h1, ts, h2, pr, h3, gw, h4, g, h5, ev, h6, tot, h7, n1, h8, w1, h9, o1, h10,
    n2, h11, w2, h12, o2, h13, n4, h14, w4, h15, o4, h16, n8, h17, w8, h18, o8, h19, hr, hn⟩ := h
  subst hr
  have b3 := Slice.index_ok_lt _ _ _ h3
  have b8 := Slice.index_ok_lt _ _ _ h8
  have b11 := Slice.index_ok_lt _ _ _ h11
  have b14 := Slice.index_ok_lt _ _ _ h14
  have b17 := Slice.index_ok_lt _ _ _ h17
  have l4 := Slice.slice_ok_len _ _ _ _ h4
  have l12 := Slice.slice_ok_len _ _ _ _ h12
  have l15 := Slice.slice_ok_len _ _ _ _ h15
  have l18 := Slice.slice_ok_len _ _ _ _ h18
  obtain ⟨tsw2, g1, e1⟩ := slice_transfer _ body2 _ _ _ h1 hlen (by omega)
    (fun i a b => ha i (by omega) (by omega) (by omega))
  have g2 : parseTimestamp tsw2 = .ok ts := by
    rw [parseTimestamp_elems tsw2 tsw e1]; exact h2
  have g3 := index_transfer _ body2 _ _ h3 hlen (ha _ (by omega) (by omega) (by omega))
  obtain ⟨gw2, g4, e4⟩ := slice_transfer _ body2 _ _ _ h4 hlen (by omega)
    (fun i a b => ha i (by omega) (by omega) (by omega))
  have g5 : parseGPSElement gw2 = .ok g := by
    rw [← parseGPSElement_elems gw gw2 e4.symm (by omega)]; exact h5
  have g6 := index_transfer _ body2 _ _ h6 hlen (ha _ (by omega) (by omega) (by omega))
  have g7 : body2.index (s + 8 + 1 + 15 + 1) = .ok v := index_congr hv (by omega)
  have g8 := index_transfer _ body2 _ _ h8 hlen (ha _ (by omega) (by omega) (by omega))
  obtain ⟨w12, g9, e9⟩ := slice_transfer _ body2 _ _ _ h9 hlen (by omega)
    (fun i a b => ha i (by omega) (by omega) (by omega))
  have g10 : parseOneByteIO w12 = .ok o1 := by
    rw [parseOneByteIO_elems w12 w1 e9]; exact h10
  have g11 := index_transfer _ body2 _ _ h11 hlen (ha _ (by omega) (by omega) (by omega))
  obtain ⟨w22, g12, e12⟩ := slice_transfer _ body2 _ _ _ h12 hlen (by omega)
    (fun i a b => ha i (by omega) (by omega) (by omega))
  have g13 : parseTwoByteIO w22 = .ok o2 := by
    rw [← parseTwoByteIO_elems w2 w22 n2.val e12.symm (by omega)]; exact h13
  have g14 := index_transfer _ body2 _ _ h14 hlen (ha _ (by omega) (by omega) (by omega))
  obtain ⟨w42, g15, e15⟩ := slice_transfer _ body2 _ _ _ h15 hlen (by omega)
    (fun i a b => ha i (by omega) (by omega) (by omega))
  have g16 : parseFourByteIO w42 = .ok o4 := by
    rw [← parseFourByteIO_elems w4 w42 n4.val e15.symm (by omega)]; exact h16
  have g17 := index_transfer _ body2 _ _ h17 hlen (ha _ (by omega) (by omega) (by omega))
  obtain ⟨w82, g18, e18⟩ := slice_transfer _ body2 _ _ _ h18 hlen (by omega)
    (fun i a b => ha i (by omega) (by omega) (by omega))
  have g19 : parseEightByteIO w82 = .ok o8 := by
    rw [← parseEightByteIO_elems w8 w82 n8.val e18.symm (by omega)]; exact h19
  unfold parseRecord
  simp only [g1, g2, g3, g4, g5, g6, g7, g8, g9, g10, g11, g12, g13, g14, g15, g16, g17, g18,
    g19, ok_bind]
  rw [hn]
  rfl

/-! ## Bounds on the cursor -/

/-- A successful iteration consumes at least 30 bytes, its last count byte lies
inside the visible part of the slice, and the new cursor does not pass the
capacity. -/
theorem parseRecord_bounds (body : Slice) (s : Nat) (r : AVLData) (next : Nat)
    (h : parseRecord body s = .ok (r, next)) :
    s + 30 ≤ next ∧ s + 30 ≤ body.len ∧ next ≤ body.cap ∧
      ∃ (p8 : Nat) (n8 : Byte), body.index p8 = .ok n8 ∧ s + 29 ≤ p8 ∧
        next = p8 + 1 + 9 * n8.val ∧ r.IOElement.EightByteIO.length = n8.val := by
  unfold parseRecord at h
  simp only [bind_eq_ok, pure_eq_ok, Prod.mk.injEq] at h
  obtain ⟨tsw, h1, ts, h2, pr, h3, gw, h4, g, h5, ev, h6, tot, h7, n1, h8, w1, h9, o1, h10,
    n2, h11, w2, h12, o2, h13, n4, h14, w4, h15, o4, h16, n8, h17, w8, h18, o8, h19, hr, hn⟩ := h
  subst hr
  have b17 := Slice.index_ok_lt _ _ _ h17
  obtain ⟨_, c18, _⟩ := (Slice.slice_eq_ok _ _ _ _).mp h18
  have l8 := parseWideIO_length 8 _ _ _ _ _ n8.val _ bigEndianUint64_window h18 h19 (by omega)
  exact ⟨by omega, by omega, by omega, _, n8, h17, by omega, by omega, l8⟩

theorem recordSize_ge (r : AVLData) : 30 ≤ recordSize r := by
  unfold recordSize
  omega

theorem recordStart_mono (recs : List AVLData) (j : Nat) :
    ∀ d, recordStart recs j ≤ recordStart recs (j + d) := by
  intro d
  induction d with
  | zero => exact Nat.le_refl _
  | succ d ih =>
    have : recordStart recs (j + (d + 1)) = recordStart recs (j + d) +
        (match recs[j + d]? with
         | some r => recordSize r
         | none => 0) := rfl
    omega

theorem recordStart_le (recs : List AVLData) (j k : Nat) (h : j ≤ k) :
    recordStart recs j ≤ recordStart recs k := by
  have := recordStart_mono recs j (k - j)
  rw [Nat.add_sub_cancel' h] at this
  exact this

theorem recordStart_ge (recs : List AVLData) :
    ∀ k, k ≤ recs.length → 2 + 30 * k ≤ recordStart recs k := by
  intro k
  induction k with
  | zero => intro _; simp [recordStart]
  | succ k ih =>
    intro hk
    have hget : recs[k]? = some recs[k] := List.getElem?_eq_getElem (by omega)
    rw [recordStart_succ _ _ _ hget]
    have := recordSize_ge recs[k]
    have := ih (by omega)
    omega

/-- Conversely to `parseLoop_spec`: a record list each of whose records is what
one iteration decodes at its start offset is what the loop returns. -/
theorem parseLoop_of_spec (body : Slice) (recs : List AVLData)
    (hrec : ∀ k r, recs[k]? = some r →
      parseRecord body (recordStart recs k) = .ok (r, recordStart recs (k + 1))) :
    ∀ m j, j + m = recs.length →
      parseLoop body m (recordStart recs j) (recs.take j)
        = .ok (recs, recordStart recs recs.length) := by
  intro m
  induction m with
  | zero =>
    intro j hj
    have : j = recs.length := by omega
    subst this
    simp [parseLoop]
  | succ m ih =>
    intro j hj
    have hlt : j < recs.length := by omega
    have hget : recs[j]? = some recs[j] := List.getElem?_eq_getElem hlt
    simp only [parseLoop]
    rw [hrec j _ hget, ok_bind]
    have := ih (j + 1) (by omega)
    rw [List.take_succ, hget] at this
    exact this

theorem parseWithCursor_of_spec (body : Slice) (frame : AVLDataArray)
    (h0 : body.index 0 = .ok frame.CodecID) (h1 : body.index 1 = .ok frame.NoOfData)
    (hlen : frame.AVLData.length = frame.NoOfData.val)
    (hrec : ∀ k r, frame.AVLData[k]? = some r →
      parseRecord body (recordStart frame.AVLData k)
        = .ok (r, recordStart frame.AVLData (k + 1))) :
    parseWithCursor body
      = .ok (frame, recordStart frame.AVLData frame.AVLData.length) := by
  have := parseLoop_of_spec body frame.AVLData hrec frame.NoOfData.val 0 (by omega)
  unfold parseWithCursor
  rw [h0, ok_bind, h1, ok_bind]
  simp only [List.take_zero] at this
  have e : recordStart frame.AVLData 0 = 2 := rfl
  rw [e] at this
  rw [this, ok_bind]
  rfl

theorem parseWithCursor_bounds (body : Slice) (frame : AVLDataArray) (c : Nat)
    (h : parseWithCursor body = .ok (frame, c)) :
    2 + 30 * frame.NoOfData.val ≤ c ∧ c ≤ body.cap ∧ 2 + 30 * frame.NoOfData.val ≤ body.len := by
  obtain ⟨h0, h1, hlen, hc, hrec⟩ := parseWithCursor_spec body frame c h
  have hge := recordStart_ge frame.AVLData frame.AVLData.length (Nat.le_refl _)
  have h1lt := Slice.index_ok_lt _ _ _ h1
  have hcap := Slice.len_le_cap body
  by_cases hz : frame.AVLData.length = 0
  · have : c = 2 := by rw [hc, hz]; rfl
    omega
  · obtain ⟨k, hk⟩ : ∃ k, frame.AVLData.length = k + 1 :=
      ⟨frame.AVLData.length - 1, by omega⟩
    have hget : frame.AVLData[k]? = some frame.AVLData[k] :=
      List.getElem?_eq_getElem (by omega)
    obtain ⟨b1, b2, b3, _⟩ := parseRecord_bounds _ _ _ _ (hrec k _ hget)
    have hk2 := recordStart_ge frame.AVLData k (by omega)
    rw [hk] at hc hge
    omega

/-- A run of `Parse` that ends with the cursor at `c` gives the same frame and
cursor in every slice that is at least as long and holds the same first `c`
bytes. -/
theorem parseWithCursor_ext (body body2 : Slice) (frame : AVLDataArray) (c : Nat)
    (h : parseWithCursor body = .ok (frame, c)) (hlen : body.len ≤ body2.len)
    (ha : ∀ i, i < c → body2.backing[i]? = body.backing[i]?) :
    parseWithCursor body2 = .ok (frame, c) := by
  obtain ⟨h0, h1, hl, hc, hrec⟩ := parseWithCursor_spec body frame c h
  obtain ⟨hb, _, _⟩ := parseWithCursor_bounds body frame c h
  rw [hc]
  refine parseWithCursor_of_spec body2 frame
    (index_transfer _ _ _ _ h0 hlen (ha 0 (by omega)))
    (index_transfer _ _ _ _ h1 hlen (ha 1 (by omega))) hl ?_
  intro k r hk
  have hp := hrec k r hk
  have hklt : k < frame.AVLData.length := (List.getElem?_eq_some_iff.mp hk).1
  have hnext : recordStart frame.AVLData (k + 1) ≤ c := by
    rw [hc]; exact recordStart_le _ _ _ (by omega)
  obtain ⟨b1, _, _, _⟩ := parseRecord_bounds _ _ _ _ hp
  obtain ⟨_, _, _, _, _, _, _, _, htot, _⟩ := parseRecord_spec _ _ _ _ hp
  have hv := index_transfer _ body2 _ _ htot hlen (ha _ (by omega))
  exact parseRecord_congr body body2 _ r _ _ hp hlen
    (fun i _ hi _ => ha i (by omega)) hv

theorem recordSize_setTotalCount (r : AVLData) (v : Byte) :
    recordSize (setTotalCount r v) = recordSize r := rfl

theorem recordStart_take (A B : List AVLData) (j : Nat) (h : A.take j = B.take j) :
    recordStart A j = recordStart B j := by
  rw [recordStart_eq_sum, recordStart_eq_sum, h]

theorem recordStart_set (recs : List AVLData) (k : Nat) (r r2 : AVLData)
    (hk : recs[k]? = some r) (hs : recordSize r2 = recordSize r) :
    ∀ j, recordStart (recs.set k r2) j = recordStart recs j := by
  intro j
  induction j with
  | zero => rfl
  | succ j ih =>
    simp only [recordStart]
    rw [ih]
    by_cases hjk : k = j
    · subst hjk
      have hlt := (List.getElem?_eq_some_iff.mp hk).1
      rw [List.getElem?_set_self hlt, hk]
      simp only [hs]
    · rw [List.getElem?_set_ne hjk]

/-- Two record lists that are both decoded record by record from the same slice
agree as far as both reach. -/
theorem spec_unique (body : Slice) (A B : List AVLData)
    (hA : ∀ k r, A[k]? = some r →
      parseRecord body (recordStart A k) = .ok (r, recordStart A (k + 1)))
    (hB : ∀ k r, B[k]? = some r →
      parseRecord body (recordStart B k) = .ok (r, recordStart B (k + 1))) :
    ∀ j, j ≤ A.length → j ≤ B.length → A.take j = B.take j := by
  intro j
  induction j with
  | zero => intro _ _; rfl
  | succ j ih =>
    intro h1 h2
    have e := ih (by omega) (by omega)
    have gA : A[j]? = some A[j] := List.getElem?_eq_getElem (by omega)
    have gB : B[j]? = some B[j] := List.getElem?_eq_getElem (by omega)
    have pA := hA j _ gA
    have pB := hB j _ gB
    rw [recordStart_take A B j e, pB] at pA
    injection pA with pA
    injection pA with pA _
    rw [List.take_succ, List.take_succ, e, gA, gB, pA]

theorem parseLoop_add (body : Slice) :
    ∀ (k m s : Nat) (acc : List AVLData),
      parseLoop body (k + m) s acc
        = (parseLoop body k s acc >>= fun x => parseLoop body m x.2 x.1) := by
  intro k
  induction k with
  | zero =>
    intro m s acc
    rw [Nat.zero_add]
    simp only [parseLoop, ok_bind]
  | succ k ih =>
    intro m s acc
    have e : k + 1 + m = (k + m) + 1 := by omega
    rw [e]
    simp only [parseLoop]
    cases hp : parseRecord body s with
    | error err => simp only [error_bind]
    | ok x =>
      obtain ⟨r, next⟩ := x
      simp only [ok_bind]
      exact ih m next (acc ++ [r])

theorem parseWithCursor_eq_ok (body : Slice) (frame : AVLDataArray) (c : Nat) :
    parseWithCursor body = .ok (frame, c) ↔
      body.index 0 = .ok frame.CodecID ∧ body.index 1 = .ok frame.NoOfData ∧
        parseLoop body frame.NoOfData.val 2 [] = .ok (frame.AVLData, c) := by
  unfold parseWithCursor
  simp only [bind_eq_ok, pure_eq_ok, Prod.mk.injEq]
  constructor
  · rintro ⟨codec, h0, n, h1, ⟨recs, cur⟩, h2, h3, h4⟩
    simp only at h3 h4
    subst h3 h4
    exact ⟨h0, h1, h2⟩
  · rintro ⟨h0, h1, h2⟩
    exact ⟨_, h0, _, h1, (frame.AVLData, c), h2, rfl, rfl⟩

theorem recordStart_succ_ge (recs : List AVLData) (j : Nat) (h : j < recs.length) :
    recordStart recs j + 30 ≤ recordStart recs (j + 1) := by
  have hget : recs[j]? = some recs[j] := List.getElem?_eq_getElem h
  rw [recordStart_succ _ _ _ hget]
  have := recordSize_ge recs[j]
  omega

theorem set_backing (b : Slice) (p i : Nat) (v : Byte) (h : i ≠ p) :
    ({ b with elems := b.elems.set p v } : Slice).backing[i]? = b.backing[i]? := by
  unfold Slice.backing
  simp only
  by_cases hi : i < b.elems.length
  · rw [List.getElem?_append_left (by rw [List.length_set]; exact hi),
      List.getElem?_append_left hi, List.getElem?_set_ne (Ne.symm h)]
  · rw [List.getElem?_append_right (by rw [List.length_set]; omega),
      List.getElem?_append_right (by omega), List.length_set]

/-- The loop of `Parse` uses the byte at offset `s_k + 25` of record `k` for the
field `NoOfTotalIO` of that record and for nothing else. -/
theorem parseLoop_set_total (body body2 : Slice) (recs : List AVLData) (n c k : Nat)
    (r : AVLData) (v : Byte)
    (h : parseLoop body n 2 [] = .ok (recs, c)) (hk : recs[k]? = some r)
    (hlen : body.len ≤ body2.len)
    (ha : ∀ i, i < c → i ≠ recordStart recs k + 25 → body2.backing[i]? = body.backing[i]?)
    (hv : body2.index (recordStart recs k + 25) = .ok v) :
    parseLoop body2 n 2 [] = .ok (recs.set k (setTotalCount r v), c) := by
  obtain ⟨hl, hc, hrec⟩ := parseLoop_spec body n 2 [] recs c h rfl
    (by intro j x hj; simp at hj)
  simp only [List.length_nil, Nat.zero_add] at hl
  have hklt : k < recs.length := (List.getElem?_eq_some_iff.mp hk).1
  have hstart := recordStart_set recs k r (setTotalCount r v) hk (recordSize_setTotalCount r v)
  have hrec2 : ∀ j x, (recs.set k (setTotalCount r v))[j]? = some x →
      parseRecord body2 (recordStart (recs.set k (setTotalCount r v)) j)
        = .ok (x, recordStart (recs.set k (setTotalCount r v)) (j + 1)) := by
    intro j x hj
    rw [hstart, hstart]
    have hjlt : j < recs.length := by
      have := (List.getElem?_eq_some_iff.mp hj).1
      rw [List.length_set] at this
      exact this
    have hnext : recordStart recs (j + 1) ≤ c := by
      rw [hc]; exact recordStart_le _ _ _ (by omega)
    by_cases hjk : k = j
    · subst hjk
      rw [List.getElem?_set_self hklt] at hj
      injection hj with hj
      subst hj
      exact parseRecord_congr body body2 _ r _ v (hrec k r hk) hlen
        (fun i _ hi hne => ha i (by omega) hne) hv
    · rw [List.getElem?_set_ne hjk] at hj
      have hp := hrec j x hj
      obtain ⟨b1, _, _, _⟩ := parseRecord_bounds _ _ _ _ hp
      obtain ⟨_, _, _, _, _, _, _, _, htot, _⟩ := parseRecord_spec _ _ _ _ hp
      have hdisj : recordStart recs (j + 1) ≤ recordStart recs k ∨
          recordStart recs (k + 1) ≤ recordStart recs j := by
        by_cases hlt : j < k
        · exact Or.inl (recordStart_le _ _ _ (by omega))
        · exact Or.inr (recordStart_le _ _ _ (by omega))
      have hk30 := recordStart_succ_ge recs k hklt
      have hvj := index_transfer _ body2 _ _ htot hlen (ha _ (by omega) (by omega))
      exact parseRecord_congr body body2 _ x _ _ hp hlen
        (fun i h1 h2 _ => ha i (by omega) (by omega)) hvj
  have := parseLoop_of_spec body2 _ hrec2 n 0 (by rw [List.length_set]; omega)
  rw [hstart, hstart, List.length_set, List.take_zero, ← hc] at this
  exact this

theorem parseWithCursor_set_total (body body2 : Slice) (frame : AVLDataArray) (c k : Nat)
    (r : AVLData) (v : Byte)
    (h : parseWithCursor body = .ok (frame, c)) (hk : frame.AVLData[k]? = some r)
    (hlen : body.len ≤ body2.len)
    (ha : ∀ i, i < c → i ≠ recordStart frame.AVLData k + 25 →
      body2.backing[i]? = body.backing[i]?)
    (hv : body2.index (recordStart frame.AVLData k + 25) = .ok v) :
    parseWithCursor body2
      = .ok ({ frame with AVLData := frame.AVLData.set k (setTotalCount r v) }, c) := by
  obtain ⟨hb, _, _⟩ := parseWithCursor_bounds body frame c h
  obtain ⟨h0, h1, h2⟩ := (parseWithCursor_eq_ok _ _ _).mp h
  have hge := recordStart_ge frame.AVLData 0 (by omega)
  have hle := recordStart_le frame.AVLData 0 k (by omega)
  refine (parseWithCursor_eq_ok _ _ _).mpr
    ⟨index_transfer _ _ _ _ h0 hlen (ha 0 (by omega) (by omega)),
     index_transfer _ _ _ _ h1 hlen (ha 1 (by omega) (by omega)), ?_⟩
  exact parseLoop_set_total body body2 _ _ _ k r v h2 hk hlen ha hv

theorem set_index_self (b : Slice) (p : Nat) (v : Byte) (h : p < b.len) :
    ({ elems := b.elems.set p v, spare := b.spare } : Slice).index p = .ok v := by
  rw [Slice.index_eq_ok]
  exact List.getElem?_set_self h

theorem set_len (b : Slice) (p : Nat) (v : Byte) :
    ({ elems := b.elems.set p v, spare := b.spare } : Slice).len = b.len := by
  unfold Slice.len
  exact List.length_set _ _ _

/-- Both directions of the independence from the total-count byte of record `k`,
for a slice in which the first `k + 1` iterations of the loop succeed. -/
theorem total_count_independent (b : Slice) (n v : Byte) (k : Nat) (recs : List AVLData)
    (nxt : Nat) (hn : b.index 1 = .ok n) (hk : k < n.val)
    (hdec : parseLoop b (k + 1) 2 [] = .ok (recs, nxt)) :
    (∀ frame c, parseWithCursor b = .ok (frame, c) →
      ∃ r, frame.AVLData[k]? = some r ∧
        parseWithCursor { elems := b.elems.set (recordStart recs k + 25) v, spare := b.spare }
          = .ok ({ frame with AVLData := frame.AVLData.set k (setTotalCount r v) }, c)) ∧
    (∀ frame2 c,
      parseWithCursor { elems := b.elems.set (recordStart recs k + 25) v, spare := b.spare }
        = .ok (frame2, c) →
      ∃ r2 old, frame2.AVLData[k]? = some r2 ∧ b.index (recordStart recs k + 25) = .ok old ∧
        parseWithCursor b
          = .ok ({ frame2 with AVLData := frame2.AVLData.set k (setTotalCount r2 old) }, c)) := by
  obtain ⟨hl, hc, hrecA⟩ := parseLoop_spec b (k + 1) 2 [] recs nxt hdec rfl
    (by intro j x hj; simp at hj)
  simp only [List.length_nil, Nat.zero_add] at hl
  obtain ⟨r0, hk0⟩ : ∃ r0, recs[k]? = some r0 :=
    ⟨recs[k], List.getElem?_eq_getElem (by omega)⟩
  have hpk := hrecA k _ hk0
  obtain ⟨_, _, _, _, _, _, _, _, htot, _⟩ := parseRecord_spec _ _ _ _ hpk
  have hplt := Slice.index_ok_lt _ _ _ htot
  have hge := recordStart_ge recs 0 (by omega)
  have hle := recordStart_le recs 0 k (by omega)
  have hv := set_index_self b (recordStart recs k + 25) v hplt
  have hlen2 := set_len b (recordStart recs k + 25) v
  constructor
  · intro frame c hp
    obtain ⟨_, h1, hlf, _, hrecF⟩ := parseWithCursor_spec b frame c hp
    rw [hn] at h1
    injection h1 with h1
    subst h1
    have e1 := spec_unique b recs frame.AVLData hrecA hrecF (k + 1) (by omega) (by omega)
    have e0 := spec_unique b recs frame.AVLData hrecA hrecF k (by omega) (by omega)
    have hs := recordStart_take _ _ _ e0
    have t1 : (frame.AVLData.take (k + 1))[k]? = frame.AVLData[k]? :=
      List.getElem?_take_of_lt (Nat.lt_succ_self k)
    have t2 : (recs.take (k + 1))[k]? = recs[k]? :=
      List.getElem?_take_of_lt (Nat.lt_succ_self k)
    have hkF : frame.AVLData[k]? = some r0 := by
      rw [← t1, ← e1, t2]
      exact hk0
    refine ⟨r0, hkF, ?_⟩
    refine parseWithCursor_set_total b _ frame c k _ v hp hkF (by omega) ?_ ?_
    · intro i _ hi
      rw [← hs] at hi
      exact set_backing b _ i v hi
    · rw [← hs]; exact hv
  · intro frame2 c hp2
    have hdec2 := parseLoop_set_total b
      { elems := b.elems.set (recordStart recs k + 25) v, spare := b.spare } recs (k + 1) nxt k
      r0 v hdec hk0 (by omega) (fun i _ hi => set_backing b _ i v hi) hv
    obtain ⟨_, _, hrecB⟩ := parseLoop_spec _ (k + 1) 2 [] _ nxt hdec2 rfl
      (by intro j x hj; simp at hj)
    obtain ⟨_, h1, hlf, _, hrecF⟩ := parseWithCursor_spec _ frame2 c hp2
    have hn2 := index_transfer b
      { elems := b.elems.set (recordStart recs k + 25) v, spare := b.spare } 1 n hn (by omega)
      (set_backing b _ 1 v (by omega))
    rw [hn2] at h1
    injection h1 with h1
    subst h1
    have hstart := recordStart_set recs k r0 (setTotalCount r0 v) hk0
      (recordSize_setTotalCount _ v)
    have e1 := spec_unique _ _ frame2.AVLData hrecB hrecF (k + 1)
      (by rw [List.length_set]; omega) (by omega)
    have e0 := spec_unique _ _ frame2.AVLData hrecB hrecF k
      (by rw [List.length_set]; omega) (by omega)
    have hs : recordStart recs k = recordStart frame2.AVLData k :=
      (hstart k).symm.trans (recordStart_take _ _ _ e0)
    have t1 : (frame2.AVLData.take (k + 1))[k]? = frame2.AVLData[k]? :=
      List.getElem?_take_of_lt (Nat.lt_succ_self k)
    have t2 : ((recs.set k (setTotalCount r0 v)).take (k + 1))[k]?
        = (recs.set k (setTotalCount r0 v))[k]? :=
      List.getElem?_take_of_lt (Nat.lt_succ_self k)
    have hkF : frame2.AVLData[k]? = some (setTotalCount r0 v) := by
      rw [← t1, ← e1, t2]
      exact List.getElem?_set_self (by omega)
    refine ⟨setTotalCount r0 v, r0.IOElement.NoOfTotalIO, hkF, htot, ?_⟩
    refine parseWithCursor_set_total _ b frame2 c k _ _ hp2 hkF (by omega) ?_ ?_
    · intro i _ hi
      rw [← hs] at hi
      exact (set_backing b _ i v hi).symm
    · rw [← hs]; exact htot

/-! ## Runs on the test buffers -/

theorem parseWithCursor_tailBacking :
    parseWithCursor (Slice.ofList tailBacking) = .ok (tailFrame, 41) :=
  eq_ok_of_toOption _ _ (by decide!)

theorem slice_tailBacking : (Slice.ofList tailBacking).slice 0 40 = .ok tailSlice :=
  eq_ok_of_toOption _ _ (by decide!)

theorem parseWithCursor_tailSlice : parseWithCursor tailSlice = .ok (tailFrame, 41) :=
  eq_ok_of_toOption _ _ (by decide!)

theorem parseWithCursor_tailAppended :
    parseWithCursor tailAppended =
      .ok ({ tailFrame with
             AVLData := tailFrame.AVLData.map fun r =>
               { r with IOElement := { r.IOElement with EightByteIO := [(0x4e, 0xff)] } } },
           41) :=
  eq_ok_of_toOption _ _ (by decide!)

theorem parseLoop_truncatedBody :
    parseLoop truncatedBody 2 2 [] = .ok (mainFrame.AVLData.take 2, 84) :=
  eq_ok_of_toOption _ _ (by decide!)

theorem parseLoop_mainBody_two :
    parseLoop mainBody 2 2 [] = .ok (mainFrame.AVLData.take 2, 84) :=
  eq_ok_of_toOption _ _ (by decide!)

theorem parseWithCursor_mismatchBody :
    parseWithCursor mismatchBody = .ok (mismatchFrame, 166) :=
  eq_ok_of_toOption _ _ (by decide!)

theorem parseWithCursor_zeroTierBody :
    parseWithCursor zeroTierBody = .ok (zeroTierFrame, 32) :=
  eq_ok_of_toOption _ _ (by decide!)

theorem eq_error_of_fault {α : Type} (x : Except Fault α) (e : Fault)
    (h : (match x with
          | .error f => some f
          | .ok _ => none) = some e) : x = .error e := by
  cases x with
  | error f =>
    simp only [Option.some.injEq] at h
    rw [h]
  | ok a => simp at h

theorem parseRecord_truncatedBody : parseRecord truncatedBody 84 = .error .outOfRange :=
  eq_error_of_fault _ _ (by decide!)

theorem ofList_take_backing (b : Slice) (n i : Nat)
    (hi : i < (Slice.ofList (b.elems.take n)).cap) :
    b.backing[i]? = (Slice.ofList (b.elems.take n)).backing[i]? := by
  unfold Slice.cap Slice.ofList at hi
  simp only [List.length_take, List.length_nil, Nat.add_zero] at hi
  unfold Slice.backing Slice.ofList
  simp only [List.append_nil]
  rw [List.getElem?_append_left (by omega), List.getElem?_take_of_lt (by omega)]

/-- A buffer that holds exactly the first `n` bytes of a decodable buffer, with
`n` below the final cursor, makes `Parse` panic. -/
theorem truncated_fails (b : Slice) (frame : AVLDataArray) (c n : Nat)
    (h : parseWithCursor b = .ok (frame, c)) (hn : n < c) :
    Parse (Slice.ofList (b.elems.take n)) = .error .outOfRange := by
  cases hP : Parse (Slice.ofList (b.elems.take n)) with
  | error e => rw [Parse_error _ e hP]
  | ok ft =>
    exfalso
    obtain ⟨ct, hct⟩ := (Parse_eq_ok _ _).mp hP
    obtain ⟨_, hcap, _⟩ := parseWithCursor_bounds _ _ _ hct
    have hlen : (Slice.ofList (b.elems.take n)).len ≤ b.len := by
      unfold Slice.len Slice.ofList
      simp only [List.length_take]
      omega
    have hcapn : (Slice.ofList (b.elems.take n)).cap ≤ n := by
      unfold Slice.cap Slice.ofList
      simp only [List.length_take, List.length_nil, Nat.add_zero]
      omega
    have hext := parseWithCursor_ext _ b ft ct hct hlen
      (fun i hi => ofList_take_backing b n i (by omega))
    rw [h] at hext
    injection hext with hext
    injection hext with _ hc
    omega

theorem loop_failure (body : Slice) (n : Byte) (k : Nat) (recs : List AVLData) (s : Nat)
    (e : Fault) (hn : body.index 1 = .ok n) (hk : k < n.val)
    (hdec : parseLoop body k 2 [] = .ok (recs, s)) (hfail : parseRecord body s = .error e) :
    Parse body = .error .outOfRange := by
  have hlt := Slice.index_ok_lt _ _ _ hn
  obtain ⟨codec, h0, _⟩ := Slice.index_of_lt body 0 (by omega)
  have hsplit := parseLoop_add body k (n.val - k - 1 + 1) 2 []
  have e1 : k + (n.val - k - 1 + 1) = n.val := by omega
  rw [e1, hdec, ok_bind] at hsplit
  simp only [parseLoop, hfail, error_bind] at hsplit
  have hP : Parse body = .error e := by
    unfold Parse parseWithCursor
    rw [h0, ok_bind, hn, ok_bind, hsplit, error_bind, error_bind]
  rw [hP, Parse_error _ e hP]

theorem index_truncatedBody : truncatedBody.index 1 = .ok 4 :=
  eq_ok_of_toOption _ _ (by decide!)

theorem index_mainBody_one : mainBody.index 1 = .ok 4 :=
  eq_ok_of_toOption _ _ (by decide!)

theorem append_backing (b : Slice) (t spare2 : List Byte) (i : Nat) (h : i < b.len) :
    ({ elems := b.elems ++ t, spare := spare2 } : Slice).backing[i]? = b.backing[i]? := by
  unfold Slice.backing
  simp only
  have h2 : i < b.elems.length := h
  rw [List.getElem?_append_left (by rw [List.length_append]; omega),
    List.getElem?_append_left h2, List.getElem?_append_left h2]

theorem spare_nil_cap (b : Slice) (h : b.spare = []) : b.cap = b.len := by
  unfold Slice.cap Slice.len
  rw [h]
  rfl

/-! ## The claims -/

/-- C1: whenever `Parse` returns a frame, `CodecID` is `body[0]`, `NoOfData` is
`body[1]`, and `AVLData` holds exactly `NoOfData` records. -/
theorem Parse_header (body : Slice) (frame : AVLDataArray) (h : Parse body = .ok frame) :
    body.index 0 = .ok frame.CodecID ∧ body.index 1 = .ok frame.NoOfData ∧
      frame.AVLData.length = frame.NoOfData.val := by
  obtain ⟨c, hc⟩ := (Parse_eq_ok _ _).mp h
  obtain ⟨h0, h1, h2, _, _⟩ := parseWithCursor_spec body frame c hc
  exact ⟨h0, h1, h2⟩

/-- Witness of C1 on the slice literal of `main`. -/
theorem Parse_header_witness :
    Parse mainBody = .ok mainFrame ∧
      mainBody.index 0 = .ok mainFrame.CodecID ∧ mainBody.index 1 = .ok mainFrame.NoOfData ∧
      mainFrame.AVLData.length = mainFrame.NoOfData.val :=
  ⟨Parse_mainBody, Parse_header mainBody mainFrame Parse_mainBody⟩

/-- C2: whenever `Parse` returns a frame and `k < NoOfData`, record `k` exists;
with `s_0 = 2` and `s_(k+1) = s_k + 30 + 2*n1 + 3*n2 + 5*n4 + 9*n8` (the `n`
being the lengths of the four tier sequences of record `k`), its timestamp is
`parseTimestamp(body[s_k : s_k+8])`, its priority `body[s_k+8]`, its GPS element
`parseGPSElement(body[s_k+9 : s_k+24])`, its event id `body[s_k+24]` and its
total IO count `body[s_k+25]`. -/
theorem Parse_record_fields (body : Slice) (frame : AVLDataArray) (k : Nat)
    (h : Parse body = .ok frame) (hk : k < frame.NoOfData.val) :
    recordStart frame.AVLData 0 = 2 ∧
    ∃ r, frame.AVLData[k]? = some r ∧
      recordStart frame.AVLData (k + 1) = recordStart frame.AVLData k + 30
        + 2 * r.IOElement.OneByteIO.length + 3 * r.IOElement.TwoByteIO.length
        + 5 * r.IOElement.FourByteIO.length + 9 * r.IOElement.EightByteIO.length ∧
      (body.slice (recordStart frame.AVLData k) (recordStart frame.AVLData k + 8)
        >>= parseTimestamp) = .ok r.Timestamp ∧
      body.index (recordStart frame.AVLData k + 8) = .ok r.Priority ∧
      (body.slice (recordStart frame.AVLData k + 9) (recordStart frame.AVLData k + 24)
        >>= parseGPSElement) = .ok r.GPSElement ∧
      body.index (recordStart frame.AVLData k + 24) = .ok r.IOElement.EventIOID ∧
      body.index (recordStart frame.AVLData k + 25) = .ok r.IOElement.NoOfTotalIO := by
  obtain ⟨c, hc⟩ := (Parse_eq_ok _ _).mp h
  obtain ⟨_, _, hlen, _, hrec⟩ := parseWithCursor_spec body frame c hc
  have hk2 : k < frame.AVLData.length := by omega
  have hget : frame.AVLData[k]? = some frame.AVLData[k] := List.getElem?_eq_getElem hk2
  obtain ⟨n1, n2, n4, n8, a1, a2, a3, a4, a5, _⟩ := parseRecord_spec _ _ _ _ (hrec k _ hget)
  refine ⟨rfl, frame.AVLData[k], hget, ?_, a1, a2, a3, a4, a5⟩
  rw [recordStart_succ _ _ _ hget]
  unfold recordSize
  omega

/-- Witness of C2 on the slice literal of `main`, at its last record. -/
theorem Parse_record_fields_witness :
    Parse mainBody = .ok mainFrame ∧ 3 < mainFrame.NoOfData.val ∧
    recordStart mainFrame.AVLData 0 = 2 ∧
    ∃ r, mainFrame.AVLData[3]? = some r ∧
      recordStart mainFrame.AVLData (3 + 1) = recordStart mainFrame.AVLData 3 + 30
        + 2 * r.IOElement.OneByteIO.length + 3 * r.IOElement.TwoByteIO.length
        + 5 * r.IOElement.FourByteIO.length + 9 * r.IOElement.EightByteIO.length ∧
      (mainBody.slice (recordStart mainFrame.AVLData 3) (recordStart mainFrame.AVLData 3 + 8)
        >>= parseTimestamp) = .ok r.Timestamp ∧
      mainBody.index (recordStart mainFrame.AVLData 3 + 8) = .ok r.Priority ∧
      (mainBody.slice (recordStart mainFrame.AVLData 3 + 9) (recordStart mainFrame.AVLData 3 + 24)
        >>= parseGPSElement) = .ok r.GPSElement ∧
      mainBody.index (recordStart mainFrame.AVLData 3 + 24) = .ok r.IOElement.EventIOID ∧
      mainBody.index (recordStart mainFrame.AVLData 3 + 25) = .ok r.IOElement.NoOfTotalIO :=
  ⟨Parse_mainBody, by decide,
    Parse_record_fields mainBody mainFrame 3 Parse_mainBody (by decide)⟩

/-- C3: whenever `Parse` returns a frame, the four tiers of the record that
starts at offset `s` are read one after the other in the order 1-, 2-, 4-,
8-byte: the count `n1 = body[s+26]` is followed by the `2*n1` bytes of the
one-byte tier, then the count `n2` and the `3*n2` bytes of the two-byte tier,
then `n4` and `5*n4` bytes, then `n8` and `9*n8` bytes; each tier is what its
parser returns on that window, and each tier sequence has as many entries as its
count byte says. -/
theorem Parse_record_tiers (body : Slice) (frame : AVLDataArray) (k : Nat) (r : AVLData)
    (h : Parse body = .ok frame) (hk : frame.AVLData[k]? = some r) :
    ∃ n1 n2 n4 n8 : Byte, ∃ s p2 p4 p8 : Nat,
      s = recordStart frame.AVLData k ∧
      p2 = s + 27 + 2 * n1.val ∧ p4 = p2 + 1 + 3 * n2.val ∧ p8 = p4 + 1 + 5 * n4.val ∧
      body.index (s + 26) = .ok n1 ∧
      (body.slice (s + 27) (s + 27 + 2 * n1.val) >>= parseOneByteIO)
        = .ok r.IOElement.OneByteIO ∧
      body.index p2 = .ok n2 ∧
      (body.slice (p2 + 1) (p2 + 1 + 3 * n2.val) >>= parseTwoByteIO)
        = .ok r.IOElement.TwoByteIO ∧
      body.index p4 = .ok n4 ∧
      (body.slice (p4 + 1) (p4 + 1 + 5 * n4.val) >>= parseFourByteIO)
        = .ok r.IOElement.FourByteIO ∧
      body.index p8 = .ok n8 ∧
      (body.slice (p8 + 1) (p8 + 1 + 9 * n8.val) >>= parseEightByteIO)
        = .ok r.IOElement.EightByteIO ∧
      r.IOElement.OneByteIO.length = n1.val ∧ r.IOElement.TwoByteIO.length = n2.val ∧
      r.IOElement.FourByteIO.length = n4.val ∧ r.IOElement.EightByteIO.length = n8.val := by
  obtain ⟨c, hc⟩ := (Parse_eq_ok _ _).mp h
  obtain ⟨_, _, _, _, hrec⟩ := parseWithCursor_spec body frame c hc
  obtain ⟨n1, n2, n4, n8, _, _, _, _, _, b1, b2, b3, b4, b5, b6, b7, b8, l1, l2, l4, l8, _⟩ :=
    parseRecord_spec _ _ _ _ (hrec k r hk)
  exact ⟨n1, n2, n4, n8, _, _, _, _, rfl, rfl, rfl, rfl, b1, b2, b3, b4, b5, b6, b7, b8,
    l1, l2, l4, l8⟩

/-- Witness of C3 on the slice literal of `main`, at its first record. -/
theorem Parse_record_tiers_witness :
    Parse mainBody = .ok mainFrame ∧
    ∃ r, mainFrame.AVLData[0]? = some r ∧
    ∃ n1 n2 n4 n8 : Byte, ∃ s p2 p4 p8 : Nat,
      s = recordStart mainFrame.AVLData 0 ∧
      p2 = s + 27 + 2 * n1.val ∧ p4 = p2 + 1 + 3 * n2.val ∧ p8 = p4 + 1 + 5 * n4.val ∧
      mainBody.index (s + 26) = .ok n1 ∧
      (mainBody.slice (s + 27) (s + 27 + 2 * n1.val) >>= parseOneByteIO)
        = .ok r.IOElement.OneByteIO ∧
      mainBody.index p2 = .ok n2 ∧
      (mainBody.slice (p2 + 1) (p2 + 1 + 3 * n2.val) >>= parseTwoByteIO)
        = .ok r.IOElement.TwoByteIO ∧
      mainBody.index p4 = .ok n4 ∧
      (mainBody.slice (p4 + 1) (p4 + 1 + 5 * n4.val) >>= parseFourByteIO)
        = .ok r.IOElement.FourByteIO ∧
      mainBody.index p8 = .ok n8 ∧
      (mainBody.slice (p8 + 1) (p8 + 1 + 9 * n8.val) >>= parseEightByteIO)
        = .ok r.IOElement.EightByteIO ∧
      r.IOElement.OneByteIO.length = n1.val ∧ r.IOElement.TwoByteIO.length = n2.val ∧
      r.IOElement.FourByteIO.length = n4.val ∧ r.IOElement.EightByteIO.length = n8.val :=
  ⟨Parse_mainBody, _, rfl, Parse_record_tiers mainBody mainFrame 0 _ Parse_mainBody rfl⟩

/-- C4: on a slice of even length `2 * n`, `parseOneByteIO` returns without a
panic a sequence of exactly `n` entries, the `i`-th being the pair
`(data[2*i], data[2*i+1])`: buffer order is kept and no entry is dropped,
whatever the ids are. -/
theorem parseOneByteIO_pairs (data : Slice) (n : Nat) (h : data.len = 2 * n) :
    ∃ out, parseOneByteIO data = .ok out ∧ out.length = n ∧
      ∀ i, i < n → ∃ k v, data.index (2 * i) = .ok k ∧ data.index (2 * i + 1) = .ok v ∧
        out[i]? = some (k, v) :=
  parseOneByteIO_spec data n h

/-- C5: on a slice of length `n * (1 + w)`, the tier parser of value width
`w` (2, 4 or 8) returns without a panic exactly `n` entries in buffer order, the
`i`-th being `(data[i*(1+w)], v)` with `v` the big-endian value of the `w`
bytes that follow the id. -/
theorem parseWideIO_pairs (d2 d4 d8 : Slice) (n2 n4 n8 : Nat)
    (h2 : d2.len = n2 * (1 + 2)) (h4 : d4.len = n4 * (1 + 4)) (h8 : d8.len = n8 * (1 + 8)) :
    (∃ out, parseTwoByteIO d2 = .ok out ∧ out.length = n2 ∧
      ∀ i, i < n2 → ∃ k, d2.index (i * (1 + 2)) = .ok k ∧
        out[i]? = some (k, bigEndianValue ((d2.elems.drop (i * (1 + 2) + 1)).take 2))) ∧
    (∃ out, parseFourByteIO d4 = .ok out ∧ out.length = n4 ∧
      ∀ i, i < n4 → ∃ k, d4.index (i * (1 + 4)) = .ok k ∧
        out[i]? = some (k, bigEndianValue ((d4.elems.drop (i * (1 + 4) + 1)).take 4))) ∧
    (∃ out, parseEightByteIO d8 = .ok out ∧ out.length = n8 ∧
      ∀ i, i < n8 → ∃ k, d8.index (i * (1 + 8)) = .ok k ∧
        out[i]? = some (k, bigEndianValue ((d8.elems.drop (i * (1 + 8) + 1)).take 8))) :=
  ⟨parseWideIO_spec 2 bigEndianUint16 d2 n2 bigEndianUint16_window h2,
   parseWideIO_spec 4 bigEndianUint32 d4 n4 bigEndianUint32_window h4,
   parseWideIO_spec 8 bigEndianUint64 d8 n8 bigEndianUint64_window h8⟩

/-- Witness of C4 at `data = [1, 10, 2, 20]`: the two pairs come out in buffer
order, `[(1, 10), (2, 20)]`. -/
theorem parseOneByteIO_pairs_witness :
    (Slice.ofList [1, 10, 2, 20]).len = 2 * 2 ∧
      parseOneByteIO (Slice.ofList [1, 10, 2, 20]) = .ok [(1, 10), (2, 20)] := by
  refine ⟨rfl, ?_⟩
  obtain ⟨out, hout, hlen, hent⟩ := parseOneByteIO_pairs (Slice.ofList [1, 10, 2, 20]) 2 rfl
  obtain ⟨k0, v0, hk0, hv0, e0⟩ := hent 0 (by decide)
  obtain ⟨k1, v1, hk1, hv1, e1⟩ := hent 1 (by decide)
  rw [Slice.index_eq_ok] at hk0 hv0 hk1 hv1
  simp [Slice.ofList] at hk0 hv0 hk1 hv1
  subst hk0 hv0 hk1 hv1
  rw [hout]
  refine congrArg Except.ok ?_
  apply List.ext_getElem?
  intro i
  match i with
  | 0 => simpa using e0
  | 1 => simpa using e1
  | j + 2 =>
    rw [List.getElem?_eq_none (by omega)]
    simp

/-- Witness of C5: one group per width, `[7, 1, 2]`, `[7, 1, 2, 3, 4]` and
`[7, 1, 2, 3, 4, 5, 6, 7, 8]`. -/
theorem parseWideIO_pairs_witness :
    (∃ out, parseTwoByteIO (Slice.ofList [7, 1, 2]) = .ok out ∧ out.length = 1 ∧
      ∀ i, i < 1 → ∃ k, (Slice.ofList [7, 1, 2]).index (i * (1 + 2)) = .ok k ∧
        out[i]? = some (k, bigEndianValue
          (((Slice.ofList [7, 1, 2]).elems.drop (i * (1 + 2) + 1)).take 2))) ∧
    (∃ out, parseFourByteIO (Slice.ofList [7, 1, 2, 3, 4]) = .ok out ∧ out.length = 1 ∧
      ∀ i, i < 1 → ∃ k, (Slice.ofList [7, 1, 2, 3, 4]).index (i * (1 + 4)) = .ok k ∧
        out[i]? = some (k, bigEndianValue
          (((Slice.ofList [7, 1, 2, 3, 4]).elems.drop (i * (1 + 4) + 1)).take 4))) ∧
    (∃ out, parseEightByteIO (Slice.ofList [7, 1, 2, 3, 4, 5, 6, 7, 8]) = .ok out ∧
      out.length = 1 ∧
      ∀ i, i < 1 → ∃ k,
        (Slice.ofList [7, 1, 2, 3, 4, 5, 6, 7, 8]).index (i * (1 + 8)) = .ok k ∧
        out[i]? = some (k, bigEndianValue
          (((Slice.ofList [7, 1, 2, 3, 4, 5, 6, 7, 8]).elems.drop (i * (1 + 8) + 1)).take 8))) :=
  parseWideIO_pairs (Slice.ofList [7, 1, 2]) (Slice.ofList [7, 1, 2, 3, 4])
    (Slice.ofList [7, 1, 2, 3, 4, 5, 6, 7, 8]) 1 1 1 (by decide) (by decide) (by decide)

/-- C6: on every 15-byte window `parseGPSElement` returns without a panic, and
the six fields are the big-endian values of the consecutive byte groups
`d[0..4)`, `d[4..8)`, `d[8..10)`, `d[10..12)`, `d[12]`, `d[13..15)`, so that each
byte of the window enters exactly one field. -/
theorem parseGPSElement_layout (d0 d1 d2 d3 d4 d5 d6 d7 d8 d9 d10 d11 d12 d13 d14 : Byte)
    (spare : List Byte) :
    parseGPSElement ⟨[d0, d1, d2, d3, d4, d5, d6, d7, d8, d9, d10, d11, d12, d13, d14], spare⟩ =
      .ok { Longitude := d0.val * 2 ^ 24 + d1.val * 2 ^ 16 + d2.val * 2 ^ 8 + d3.val,
            Latitude := d4.val * 2 ^ 24 + d5.val * 2 ^ 16 + d6.val * 2 ^ 8 + d7.val,
            Altitude := d8.val * 2 ^ 8 + d9.val,
            Angle := d10.val * 2 ^ 8 + d11.val,
            Satellites := d12,
            Speed := d13.val * 2 ^ 8 + d14.val } :=
  parseGPSElement_cons d0 d1 d2 d3 d4 d5 d6 d7 d8 d9 d10 d11 d12 d13 d14 spare

/-- Counterexample to C7 as stated: the window `80 00 00 00 00 00 00 00` has the
unsigned big-endian value `2 ^ 63`, and `parseTimestamp` returns the instant
`-2 ^ 63` milliseconds, not `2 ^ 63`. -/
theorem parseTimestamp_unsigned_counterexample :
    bigEndianValue [0x80, 0, 0, 0, 0, 0, 0, 0] = 2 ^ 63 ∧
      parseTimestamp (Slice.ofList [0x80, 0, 0, 0, 0, 0, 0, 0]) = .ok (-(2 ^ 63 : Int)) ∧
      parseTimestamp (Slice.ofList [0x80, 0, 0, 0, 0, 0, 0, 0]) ≠
        .ok ((bigEndianValue [0x80, 0, 0, 0, 0, 0, 0, 0] : Nat) : Int) := by
  have hv : bigEndianValue [0x80, 0, 0, 0, 0, 0, 0, 0] = 2 ^ 63 := by decide
  have hp : parseTimestamp (Slice.ofList [0x80, 0, 0, 0, 0, 0, 0, 0]) = .ok (-(2 ^ 63 : Int)) := by
    unfold Slice.ofList
    rw [parseTimestamp_cons]
    refine congrArg Except.ok ?_
    decide
  refine ⟨hv, hp, ?_⟩
  rw [hp, hv]
  intro h
  injection h with h
  revert h
  decide

/-- C7 (amended): for every 8-byte window whose first byte is below `0x80`,
that is whose unsigned big-endian value is below `2 ^ 63`, `parseTimestamp`
returns the instant whose Unix millisecond value is that unsigned value. -/
theorem parseTimestamp_unsigned (d0 d1 d2 d3 d4 d5 d6 d7 : Byte) (spare : List Byte)
    (h : d0.val < 0x80) :
    parseTimestamp ⟨[d0, d1, d2, d3, d4, d5, d6, d7], spare⟩ =
      .ok ((d0.val * 2 ^ 56 + d1.val * 2 ^ 48 + d2.val * 2 ^ 40 + d3.val * 2 ^ 32
        + d4.val * 2 ^ 24 + d5.val * 2 ^ 16 + d6.val * 2 ^ 8 + d7.val : Nat) : Int) := by
  have h1 := d1.isLt
  have h2 := d2.isLt
  have h3 := d3.isLt
  have h4 := d4.isLt
  have h5 := d5.isLt
  have h6 := d6.isLt
  have h7 := d7.isLt
  rw [parseTimestamp_cons, toInt64_of_lt _ (by omega)]

/-- Witness of C7 (amended) at the first timestamp window of the fixture,
`00 00 01 13 fc 20 8d ff`. -/
theorem parseTimestamp_unsigned_witness :
    ((0x00 : Byte).val < 0x80) ∧
      parseTimestamp ⟨[0x00, 0x00, 0x01, 0x13, 0xfc, 0x20, 0x8d, 0xff], []⟩ =
        .ok (((0x00 : Byte).val * 2 ^ 56 + (0x00 : Byte).val * 2 ^ 48
          + (0x01 : Byte).val * 2 ^ 40 + (0x13 : Byte).val * 2 ^ 32
          + (0xfc : Byte).val * 2 ^ 24 + (0x20 : Byte).val * 2 ^ 16
          + (0x8d : Byte).val * 2 ^ 8 + (0xff : Byte).val : Nat) : Int) :=
  ⟨by decide, parseTimestamp_unsigned 0x00 0x00 0x01 0x13 0xfc 0x20 0x8d 0xff [] (by decide)⟩

/-- C8: whenever `Parse` returns, the iteration that decodes record `k` moves
the cursor from `s_k` to `s_k + (8 + 1 + 15 + 2 + 4 + 2*n1 + 3*n2 + 5*n4 + 9*n8)`,
the `n` being the four tier count bytes of that record, and the value of
`startIndex` after the loop is 2 plus the sum of these sizes over all `NoOfData`
records. -/
theorem Parse_cursor (body : Slice) (frame : AVLDataArray) (c : Nat)
    (h : parseWithCursor body = .ok (frame, c)) :
    (∀ k r, frame.AVLData[k]? = some r →
      ∃ n1 n2 n4 n8 : Byte, ∃ s p2 p4 p8 : Nat,
        s = recordStart frame.AVLData k ∧
        p2 = s + 27 + 2 * n1.val ∧ p4 = p2 + 1 + 3 * n2.val ∧ p8 = p4 + 1 + 5 * n4.val ∧
        body.index (s + 26) = .ok n1 ∧ body.index p2 = .ok n2 ∧
        body.index p4 = .ok n4 ∧ body.index p8 = .ok n8 ∧
        recordSize r = 8 + 1 + 15 + 2 + 4 + 2 * n1.val + 3 * n2.val + 5 * n4.val + 9 * n8.val ∧
        parseRecord body s = .ok (r, s + (8 + 1 + 15 + 2 + 4 + 2 * n1.val + 3 * n2.val
          + 5 * n4.val + 9 * n8.val))) ∧
    frame.AVLData.length = frame.NoOfData.val ∧
    c = 2 + (frame.AVLData.map recordSize).sum := by
  obtain ⟨_, _, hlen, hc, hrec⟩ := parseWithCursor_spec body frame c h
  refine ⟨?_, hlen, ?_⟩
  · intro k r hk
    have hp := hrec k r hk
    obtain ⟨n1, n2, n4, n8, _, _, _, _, _, b1, _, b3, _, b5, _, b7, _, l1, l2, l4, l8, hn⟩ :=
      parseRecord_spec _ _ _ _ hp
    refine ⟨n1, n2, n4, n8, _, _, _, _, rfl, rfl, rfl, rfl, b1, b3, b5, b7, ?_, ?_⟩
    · unfold recordSize
      rw [l1, l2, l4, l8]
    · rw [← hn]; exact hp
  · rw [hc, recordStart_eq_sum, List.take_length]

/-- Witness of C8 on the slice literal of `main`: the final cursor is 166. -/
theorem Parse_cursor_witness :
    parseWithCursor mainBody = .ok (mainFrame, 166) ∧
    (∀ k r, mainFrame.AVLData[k]? = some r →
      ∃ n1 n2 n4 n8 : Byte, ∃ s p2 p4 p8 : Nat,
        s = recordStart mainFrame.AVLData k ∧
        p2 = s + 27 + 2 * n1.val ∧ p4 = p2 + 1 + 3 * n2.val ∧ p8 = p4 + 1 + 5 * n4.val ∧
        mainBody.index (s + 26) = .ok n1 ∧ mainBody.index p2 = .ok n2 ∧
        mainBody.index p4 = .ok n4 ∧ mainBody.index p8 = .ok n8 ∧
        recordSize r = 8 + 1 + 15 + 2 + 4 + 2 * n1.val + 3 * n2.val + 5 * n4.val + 9 * n8.val ∧
        parseRecord mainBody s = .ok (r, s + (8 + 1 + 15 + 2 + 4 + 2 * n1.val + 3 * n2.val
          + 5 * n4.val + 9 * n8.val))) ∧
    mainFrame.AVLData.length = mainFrame.NoOfData.val ∧
    166 = 2 + (mainFrame.AVLData.map recordSize).sum :=
  ⟨parseWithCursor_mainBody, Parse_cursor mainBody mainFrame 166 parseWithCursor_mainBody⟩

/-- C9: `Parse` decodes the slice literal of `main` without a panic; the frame
has `CodecID = 0x08`, `NoOfData = 0x04` and exactly 4 records, each with at
least one non-empty IO tier; the first record has the timestamp
`0x00000113fc208dff = 1185345998335` Unix milliseconds and `Priority = 0x00`. -/
theorem Parse_mainBody_frame :
    ∃ frame, Parse mainBody = .ok frame ∧
      frame.CodecID = 0x08 ∧ frame.NoOfData = 0x04 ∧ frame.AVLData.length = 4 ∧
      (∀ r ∈ frame.AVLData, r.IOElement.OneByteIO ≠ [] ∨ r.IOElement.TwoByteIO ≠ [] ∨
        r.IOElement.FourByteIO ≠ [] ∨ r.IOElement.EightByteIO ≠ []) ∧
      ∃ first, frame.AVLData[0]? = some first ∧
        first.Timestamp = 0x00000113fc208dff ∧ first.Timestamp = 1185345998335 ∧
        first.Priority = 0x00 :=
  ⟨mainFrame, Parse_mainBody, by decide, by decide, by decide, by decide,
    _, rfl, by decide, by decide, by decide⟩

/-- Counterexample to C10 as stated: on the slice literal of `main` the loop of
`Parse` ends with `startIndex = 166`, and `len(body) = 167`. -/
theorem mainBody_cursor_counterexample :
    ∃ frame c, parseWithCursor mainBody = .ok (frame, c) ∧ c = 166 ∧ mainBody.len = 167 ∧
      c ≠ mainBody.len :=
  ⟨mainFrame, 166, parseWithCursor_mainBody, rfl, by decide!, by decide!⟩

/-- C10 (amended): on the slice literal of `main`, `Parse` decodes the 4 records
and ends with `startIndex = 166 = len(body) - 1`; the last byte, `0x04`, is left
unread.  The first 166 bytes of the literal are decoded to the same frame with
the final cursor equal to the buffer length. -/
theorem mainBody_final_cursor :
    parseWithCursor mainBody = .ok (mainFrame, 166) ∧ mainFrame.AVLData.length = 4 ∧
      mainBody.len = 166 + 1 ∧ mainBody.index 166 = .ok 0x04 ∧
      parseWithCursor (Slice.ofList (mainBody.elems.take 166)) = .ok (mainFrame, 166) ∧
      (Slice.ofList (mainBody.elems.take 166)).len = 166 :=
  ⟨parseWithCursor_mainBody, by decide, by decide!,
    (Slice.index_eq_ok _ _ _).mpr (by decide!), eq_ok_of_toOption _ _ (by decide!), by decide!⟩

/-- C18: `parseTimestamp` returns an instant for every 8-byte window, without a
panic and without saturation: with `v` the unsigned big-endian value of the
window, the Unix millisecond value of the instant is `v` when `v < 2 ^ 63` and
`v - 2 ^ 64` (two's-complement reinterpretation by `int64`) otherwise. -/
theorem parseTimestamp_wraps (d0 d1 d2 d3 d4 d5 d6 d7 : Byte) (spare : List Byte) :
    parseTimestamp ⟨[d0, d1, d2, d3, d4, d5, d6, d7], spare⟩ =
      .ok (if d0.val * 2 ^ 56 + d1.val * 2 ^ 48 + d2.val * 2 ^ 40 + d3.val * 2 ^ 32
              + d4.val * 2 ^ 24 + d5.val * 2 ^ 16 + d6.val * 2 ^ 8 + d7.val < 2 ^ 63
           then ((d0.val * 2 ^ 56 + d1.val * 2 ^ 48 + d2.val * 2 ^ 40 + d3.val * 2 ^ 32
              + d4.val * 2 ^ 24 + d5.val * 2 ^ 16 + d6.val * 2 ^ 8 + d7.val : Nat) : Int)
           else ((d0.val * 2 ^ 56 + d1.val * 2 ^ 48 + d2.val * 2 ^ 40 + d3.val * 2 ^ 32
              + d4.val * 2 ^ 24 + d5.val * 2 ^ 16 + d6.val * 2 ^ 8 + d7.val : Nat) : Int)
              - 2 ^ 64) := by
  have h0 := d0.isLt
  have h1 := d1.isLt
  have h2 := d2.isLt
  have h3 := d3.isLt
  have h4 := d4.isLt
  have h5 := d5.isLt
  have h6 := d6.isLt
  have h7 := d7.isLt
  rw [parseTimestamp_cons]
  refine congrArg Except.ok ?_
  split
  · rename_i h
    exact toInt64_of_lt _ h
  · rename_i h
    exact toInt64_of_ge _ (by omega) (by omega)

/-- C19: a buffer of at least two bytes whose second byte is 0 is decoded
without a panic to the frame with `CodecID = body[0]`, `NoOfData = 0` and no
records, the cursor staying at 2, whatever follows the header. -/
theorem Parse_zero_records (body : Slice) (h : 2 ≤ body.len) (h1 : body.index 1 = .ok 0) :
    ∃ codec, body.index 0 = .ok codec ∧
      Parse body = .ok { CodecID := codec, NoOfData := 0, AVLData := [] } ∧
      parseWithCursor body = .ok ({ CodecID := codec, NoOfData := 0, AVLData := [] }, 2) := by
  obtain ⟨codec, h0, _⟩ := Slice.index_of_lt body 0 (by omega)
  have hp := parseWithCursor_zero body codec h0 h1
  exact ⟨codec, h0, (Parse_eq_ok _ _).mpr ⟨2, hp⟩, hp⟩

/-- Witness of C19 at the buffer `08 00 ff ff ff`. -/
theorem Parse_zero_records_witness :
    2 ≤ (Slice.ofList [0x08, 0x00, 0xff, 0xff, 0xff]).len ∧
    (Slice.ofList [0x08, 0x00, 0xff, 0xff, 0xff]).index 1 = .ok 0 ∧
    ∃ codec, (Slice.ofList [0x08, 0x00, 0xff, 0xff, 0xff]).index 0 = .ok codec ∧
      Parse (Slice.ofList [0x08, 0x00, 0xff, 0xff, 0xff])
        = .ok { CodecID := codec, NoOfData := 0, AVLData := [] } ∧
      parseWithCursor (Slice.ofList [0x08, 0x00, 0xff, 0xff, 0xff])
        = .ok ({ CodecID := codec, NoOfData := 0, AVLData := [] }, 2) :=
  ⟨by decide, rfl, Parse_zero_records _ (by decide) rfl⟩

/-- Counterexample to C11 as stated: the 41-byte buffer `tailBacking` is decoded
with final cursor 41, and `Parse` applied to its first 40 bytes, taken as the Go
slice `b[:40]` (which keeps the capacity 41), returns the same frame without a
panic: the eight-byte value is read past the length of the slice. -/
theorem truncated_slice_counterexample :
    parseWithCursor (Slice.ofList tailBacking) = .ok (tailFrame, 41) ∧ 40 < 41 ∧
      (Slice.ofList tailBacking).slice 0 40 = .ok tailSlice ∧
      tailSlice.elems = tailBacking.take 40 ∧ tailSlice.len = 40 ∧
      Parse tailSlice = .ok tailFrame :=
  ⟨parseWithCursor_tailBacking, by decide, slice_tailBacking, rfl, by decide,
    (Parse_eq_ok _ _).mpr ⟨41, parseWithCursor_tailSlice⟩⟩

/-- C11 (amended): for every buffer on which `Parse` succeeds with final cursor
`c` and every `n < c`, `Parse` applied to a buffer that holds exactly the first
`n` bytes (length and capacity `n`, no spare capacity behind them) stops with
the out-of-range panic and returns no frame. -/
theorem Parse_truncated (b : Slice) (frame : AVLDataArray) (c n : Nat)
    (h : parseWithCursor b = .ok (frame, c)) (hn : n < c) :
    Parse (Slice.ofList (b.elems.take n)) = .error .outOfRange ∧
      ¬ ∃ f, Parse (Slice.ofList (b.elems.take n)) = .ok f := by
  have hf := truncated_fails b frame c n h hn
  refine ⟨hf, ?_⟩
  rintro ⟨f, hok⟩
  rw [hf] at hok
  cases hok

/-- Witness of C11 (amended): the slice literal of `main` cut to 165 bytes, one
byte short of the final cursor 166. -/
theorem Parse_truncated_witness :
    parseWithCursor mainBody = .ok (mainFrame, 166) ∧ 165 < 166 ∧
      Parse (Slice.ofList (mainBody.elems.take 165)) = .error .outOfRange ∧
      ¬ ∃ f, Parse (Slice.ofList (mainBody.elems.take 165)) = .ok f :=
  ⟨parseWithCursor_mainBody, by decide,
    Parse_truncated mainBody mainFrame 166 165 parseWithCursor_mainBody (by decide)⟩

/-- Counterexample to C12 as stated: in the first 100 bytes of the slice literal
of `main` the first two records are complete and the buffer runs out inside the
third; `Parse` ends with the out-of-range panic and returns no frame, so the two
decoded records are not returned. -/
theorem partial_result_counterexample :
    parseLoop truncatedBody 2 2 [] = .ok (mainFrame.AVLData.take 2, 84) ∧
      parseRecord truncatedBody 84 = .error .outOfRange ∧
      Parse truncatedBody = .error .outOfRange ∧
      ¬ ∃ f, Parse truncatedBody = .ok f := by
  have hP := loop_failure truncatedBody 4 2 _ 84 _ index_truncatedBody (by decide)
    parseLoop_truncatedBody parseRecord_truncatedBody
  refine ⟨parseLoop_truncatedBody, parseRecord_truncatedBody, hP, ?_⟩
  rintro ⟨f, hok⟩
  rw [hP] at hok
  cases hok

/-- C12 (amended): when records `0 .. k-1` have been decoded and the iteration
for record `k < NoOfData` fails, `Parse` ends with the out-of-range panic and
returns nothing: no frame, and so none of the `k` complete records. -/
theorem Parse_no_partial_result (body : Slice) (n : Byte) (k : Nat) (recs : List AVLData)
    (s : Nat) (e : Fault) (hn : body.index 1 = .ok n) (hk : k < n.val)
    (hdec : parseLoop body k 2 [] = .ok (recs, s)) (hfail : parseRecord body s = .error e) :
    e = .outOfRange ∧ Parse body = .error .outOfRange ∧ ¬ ∃ f, Parse body = .ok f := by
  have hP := loop_failure body n k recs s e hn hk hdec hfail
  refine ⟨?_, hP, ?_⟩
  · cases e with
    | outOfRange => rfl
    | outOfFuel => exact absurd hfail (noFuel_parseRecord body s)
  · rintro ⟨f, hok⟩
    rw [hP] at hok
    cases hok

/-- Witness of C12 (amended) on the first 100 bytes of the slice literal of
`main`, with `k = 2`. -/
theorem Parse_no_partial_result_witness :
    truncatedBody.index 1 = .ok 4 ∧ 2 < (4 : Byte).val ∧
      parseLoop truncatedBody 2 2 [] = .ok (mainFrame.AVLData.take 2, 84) ∧
      parseRecord truncatedBody 84 = .error .outOfRange ∧
      Fault.outOfRange = .outOfRange ∧ Parse truncatedBody = .error .outOfRange ∧
      ¬ ∃ f, Parse truncatedBody = .ok f :=
  ⟨index_truncatedBody, by decide, parseLoop_truncatedBody, parseRecord_truncatedBody,
    Parse_no_partial_result truncatedBody 4 2 _ 84 _ index_truncatedBody (by decide)
      parseLoop_truncatedBody parseRecord_truncatedBody⟩

/-- Counterexample to C13 as stated: in `mismatchBody` the first record declares
9 IO entries and carries 4; `Parse` returns normally, and what it returns is the
frame of the unchanged literal with nothing but `NoOfTotalIO = 9` in the first
record: the result carries no warning. -/
theorem count_mismatch_counterexample :
    Parse mismatchBody = .ok mismatchFrame ∧
      ∃ r, mismatchFrame.AVLData[0]? = some r ∧ r.IOElement.NoOfTotalIO.val = 9 ∧
        r.IOElement.OneByteIO.length + r.IOElement.TwoByteIO.length
          + r.IOElement.FourByteIO.length + r.IOElement.EightByteIO.length = 4 ∧
        mismatchFrame.CodecID = mainFrame.CodecID ∧
        mismatchFrame.NoOfData = mainFrame.NoOfData ∧
        mismatchFrame.AVLData = mainFrame.AVLData.set 0 (setTotalCount r 0x09) :=
  ⟨(Parse_eq_ok _ _).mpr ⟨166, parseWithCursor_mismatchBody⟩, _, rfl, by decide, by decide,
    rfl, rfl, by decide⟩

/-- C13 (amended): `Parse` does not compare the total count with the tiers.  For
every buffer it decodes and every record whose `NoOfTotalIO` differs from the
number of its IO entries, the returned record is complete: `NoOfTotalIO` is the
byte read at offset 25 of the record, each tier has as many entries as its own
count byte, and the sum of the four count bytes differs from `NoOfTotalIO`.  The
mismatch shows only in these fields of the record. -/
theorem Parse_count_mismatch (body : Slice) (frame : AVLDataArray) (k : Nat) (r : AVLData)
    (h : Parse body = .ok frame) (hk : frame.AVLData[k]? = some r)
    (hm : r.IOElement.NoOfTotalIO.val ≠ r.IOElement.OneByteIO.length
      + r.IOElement.TwoByteIO.length + r.IOElement.FourByteIO.length
      + r.IOElement.EightByteIO.length) :
    body.index (recordStart frame.AVLData k + 25) = .ok r.IOElement.NoOfTotalIO ∧
    ∃ n1 n2 n4 n8 : Byte,
      body.index (recordStart frame.AVLData k + 26) = .ok n1 ∧
      body.index (recordStart frame.AVLData k + 27 + 2 * n1.val) = .ok n2 ∧
      body.index (recordStart frame.AVLData k + 27 + 2 * n1.val + 1 + 3 * n2.val) = .ok n4 ∧
      body.index (recordStart frame.AVLData k + 27 + 2 * n1.val + 1 + 3 * n2.val + 1
        + 5 * n4.val) = .ok n8 ∧
      r.IOElement.OneByteIO.length = n1.val ∧ r.IOElement.TwoByteIO.length = n2.val ∧
      r.IOElement.FourByteIO.length = n4.val ∧ r.IOElement.EightByteIO.length = n8.val ∧
      r.IOElement.NoOfTotalIO.val ≠ n1.val + n2.val + n4.val + n8.val := by
  obtain ⟨c, hc⟩ := (Parse_eq_ok _ _).mp h
  obtain ⟨_, _, _, _, hrec⟩ := parseWithCursor_spec body frame c hc
  obtain ⟨n1, n2, n4, n8, _, _, _, _, htot, b1, _, b3, _, b5, _, b7, _, l1, l2, l4, l8, _⟩ :=
    parseRecord_spec _ _ _ _ (hrec k r hk)
  refine ⟨htot, n1, n2, n4, n8, b1, b3, b5, b7, l1, l2, l4, l8, ?_⟩
  rw [← l1, ← l2, ← l4, ← l8]
  exact hm

/-- Witness of C13 (amended) on `mismatchBody`, at its first record. -/
theorem Parse_count_mismatch_witness :
    Parse mismatchBody = .ok mismatchFrame ∧
    ∃ r, mismatchFrame.AVLData[0]? = some r ∧
    (r.IOElement.NoOfTotalIO.val ≠ r.IOElement.OneByteIO.length
      + r.IOElement.TwoByteIO.length + r.IOElement.FourByteIO.length
      + r.IOElement.EightByteIO.length) ∧
    mismatchBody.index (recordStart mismatchFrame.AVLData 0 + 25)
      = .ok r.IOElement.NoOfTotalIO ∧
    ∃ n1 n2 n4 n8 : Byte,
      mismatchBody.index (recordStart mismatchFrame.AVLData 0 + 26) = .ok n1 ∧
      mismatchBody.index (recordStart mismatchFrame.AVLData 0 + 27 + 2 * n1.val) = .ok n2 ∧
      mismatchBody.index (recordStart mismatchFrame.AVLData 0 + 27 + 2 * n1.val + 1
        + 3 * n2.val) = .ok n4 ∧
      mismatchBody.index (recordStart mismatchFrame.AVLData 0 + 27 + 2 * n1.val + 1
        + 3 * n2.val + 1 + 5 * n4.val) = .ok n8 ∧
      r.IOElement.OneByteIO.length = n1.val ∧ r.IOElement.TwoByteIO.length = n2.val ∧
      r.IOElement.FourByteIO.length = n4.val ∧ r.IOElement.EightByteIO.length = n8.val ∧
      r.IOElement.NoOfTotalIO.val ≠ n1.val + n2.val + n4.val + n8.val :=
  ⟨(Parse_eq_ok _ _).mpr ⟨166, parseWithCursor_mismatchBody⟩, _, rfl, by decide,
    Parse_count_mismatch mismatchBody mismatchFrame 0 _
      ((Parse_eq_ok _ _).mpr ⟨166, parseWithCursor_mismatchBody⟩) rfl (by decide)⟩

/-- C14: let record `k` be decoded by `Parse` in `b` (`k < NoOfData` and the
first `k + 1` iterations succeed), let `p = s_k + 25` be the offset of its
total-count byte, and let `b2` be `b` with the byte at `p` replaced by any `v`
(same length, same bytes elsewhere).  Then `Parse` succeeds on `b` exactly when
it succeeds on `b2`, with the same final cursor, and the two frames are equal
except for `NoOfTotalIO` of record `k`, which is the byte at `p`. -/
theorem Parse_total_count_frame (b : Slice) (n v : Byte) (k : Nat) (recs : List AVLData)
    (nxt : Nat) (hn : b.index 1 = .ok n) (hk : k < n.val)
    (hdec : parseLoop b (k + 1) 2 [] = .ok (recs, nxt)) :
    (∀ frame c, parseWithCursor b = .ok (frame, c) →
      ∃ r, frame.AVLData[k]? = some r ∧
        parseWithCursor { elems := b.elems.set (recordStart recs k + 25) v, spare := b.spare }
          = .ok ({ frame with AVLData := frame.AVLData.set k (setTotalCount r v) }, c)) ∧
    (∀ frame2 c,
      parseWithCursor { elems := b.elems.set (recordStart recs k + 25) v, spare := b.spare }
        = .ok (frame2, c) →
      ∃ r2 old, frame2.AVLData[k]? = some r2 ∧ b.index (recordStart recs k + 25) = .ok old ∧
        parseWithCursor b
          = .ok ({ frame2 with AVLData := frame2.AVLData.set k (setTotalCount r2 old) }, c)) :=
  total_count_independent b n v k recs nxt hn hk hdec

/-- Witness of C14 on the slice literal of `main`: record 1 starts at offset 43
and its total-count byte, at offset 68, is set to `0x09`. -/
theorem Parse_total_count_frame_witness :
    mainBody.index 1 = .ok 4 ∧ 1 < (4 : Byte).val ∧
    parseLoop mainBody (1 + 1) 2 [] = .ok (mainFrame.AVLData.take 2, 84) ∧
    recordStart (mainFrame.AVLData.take 2) 1 + 25 = 68 ∧
    (∀ frame c, parseWithCursor mainBody = .ok (frame, c) →
      ∃ r, frame.AVLData[1]? = some r ∧
        parseWithCursor
          { elems := mainBody.elems.set (recordStart (mainFrame.AVLData.take 2) 1 + 25) 0x09,
            spare := mainBody.spare }
          = .ok ({ frame with AVLData := frame.AVLData.set 1 (setTotalCount r 0x09) }, c)) ∧
    (∀ frame2 c,
      parseWithCursor
        { elems := mainBody.elems.set (recordStart (mainFrame.AVLData.take 2) 1 + 25) 0x09,
          spare := mainBody.spare }
        = .ok (frame2, c) →
      ∃ r2 old, frame2.AVLData[1]? = some r2 ∧
        mainBody.index (recordStart (mainFrame.AVLData.take 2) 1 + 25) = .ok old ∧
        parseWithCursor mainBody
          = .ok ({ frame2 with AVLData := frame2.AVLData.set 1 (setTotalCount r2 old) }, c)) :=
  ⟨index_mainBody_one, by decide, parseLoop_mainBody_two, by decide,
    Parse_total_count_frame mainBody 4 0x09 1 _ 84 index_mainBody_one (by decide)
      parseLoop_mainBody_two⟩

/-- C15: each tier parser returns the empty sequence on an empty slice; and in a
record decoded by `Parse` a tier whose count byte is 0 has no entries and takes
one byte, its count byte, so that the count byte of the next tier is the byte
right after it.  A record whose four count bytes are 0 has four empty tiers and
takes exactly 30 bytes. -/
theorem Parse_empty_tiers (spare : List Byte) (body : Slice) (frame : AVLDataArray) (k : Nat)
    (r : AVLData) (h : Parse body = .ok frame) (hk : frame.AVLData[k]? = some r) :
    parseOneByteIO ⟨[], spare⟩ = .ok [] ∧ parseTwoByteIO ⟨[], spare⟩ = .ok [] ∧
    parseFourByteIO ⟨[], spare⟩ = .ok [] ∧ parseEightByteIO ⟨[], spare⟩ = .ok [] ∧
    ∃ n1 n2 n4 n8 : Byte, ∃ s p1 p2 p4 p8 : Nat,
      s = recordStart frame.AVLData k ∧ p1 = s + 26 ∧
      body.index p1 = .ok n1 ∧ body.index p2 = .ok n2 ∧
      body.index p4 = .ok n4 ∧ body.index p8 = .ok n8 ∧
      p2 = p1 + 1 + 2 * n1.val ∧ p4 = p2 + 1 + 3 * n2.val ∧ p8 = p4 + 1 + 5 * n4.val ∧
      recordStart frame.AVLData (k + 1) = p8 + 1 + 9 * n8.val ∧
      (n1.val = 0 → r.IOElement.OneByteIO = [] ∧ p2 = p1 + 1) ∧
      (n2.val = 0 → r.IOElement.TwoByteIO = [] ∧ p4 = p2 + 1) ∧
      (n4.val = 0 → r.IOElement.FourByteIO = [] ∧ p8 = p4 + 1) ∧
      (n8.val = 0 → r.IOElement.EightByteIO = [] ∧
        recordStart frame.AVLData (k + 1) = p8 + 1) ∧
      (n1.val = 0 → n2.val = 0 → n4.val = 0 → n8.val = 0 →
        r.IOElement.OneByteIO = [] ∧ r.IOElement.TwoByteIO = [] ∧
        r.IOElement.FourByteIO = [] ∧ r.IOElement.EightByteIO = [] ∧
        recordStart frame.AVLData (k + 1) = s + 30) := by
  obtain ⟨c, hc⟩ := (Parse_eq_ok _ _).mp h
  obtain ⟨_, _, _, _, hrec⟩ := parseWithCursor_spec body frame c hc
  obtain ⟨n1, n2, n4, n8, _, _, _, _, _, b1, _, b3, _, b5, _, b7, _, l1, l2, l4, l8, hn⟩ :=
    parseRecord_spec _ _ _ _ (hrec k r hk)
  have e1 : n1.val = 0 → r.IOElement.OneByteIO = [] := fun z =>
    List.length_eq_zero.mp (by rw [l1, z])
  have e2 : n2.val = 0 → r.IOElement.TwoByteIO = [] := fun z =>
    List.length_eq_zero.mp (by rw [l2, z])
  have e4 : n4.val = 0 → r.IOElement.FourByteIO = [] := fun z =>
    List.length_eq_zero.mp (by rw [l4, z])
  have e8 : n8.val = 0 → r.IOElement.EightByteIO = [] := fun z =>
    List.length_eq_zero.mp (by rw [l8, z])
  refine ⟨rfl, rfl, rfl, rfl, n1, n2, n4, n8, _, _, _, _, _, rfl, rfl, b1,
    index_congr b3 (Nat.add_assoc _ _ _ ▸ rfl), b5, b7, ?_, rfl, rfl, ?_,
    fun z => ⟨e1 z, ?_⟩, fun z => ⟨e2 z, ?_⟩, fun z => ⟨e4 z, ?_⟩, fun z => ⟨e8 z, ?_⟩,
    fun z1 z2 z4 z8 => ⟨e1 z1, e2 z2, e4 z4, e8 z8, ?_⟩⟩
  all_goals omega

/-- Witness of C15 on `zeroTierBody`, a frame with one record whose four tier
count bytes are 0. -/
theorem Parse_empty_tiers_witness :
    Parse zeroTierBody = .ok zeroTierFrame ∧
    ∃ r, zeroTierFrame.AVLData[0]? = some r ∧
    parseOneByteIO ⟨[], []⟩ = .ok [] ∧ parseTwoByteIO ⟨[], []⟩ = .ok [] ∧
    parseFourByteIO ⟨[], []⟩ = .ok [] ∧ parseEightByteIO ⟨[], []⟩ = .ok [] ∧
    ∃ n1 n2 n4 n8 : Byte, ∃ s p1 p2 p4 p8 : Nat,
      s = recordStart zeroTierFrame.AVLData 0 ∧ p1 = s + 26 ∧
      zeroTierBody.index p1 = .ok n1 ∧ zeroTierBody.index p2 = .ok n2 ∧
      zeroTierBody.index p4 = .ok n4 ∧ zeroTierBody.index p8 = .ok n8 ∧
      p2 = p1 + 1 + 2 * n1.val ∧ p4 = p2 + 1 + 3 * n2.val ∧ p8 = p4 + 1 + 5 * n4.val ∧
      recordStart zeroTierFrame.AVLData (0 + 1) = p8 + 1 + 9 * n8.val ∧
      (n1.val = 0 → r.IOElement.OneByteIO = [] ∧ p2 = p1 + 1) ∧
      (n2.val = 0 → r.IOElement.TwoByteIO = [] ∧ p4 = p2 + 1) ∧
      (n4.val = 0 → r.IOElement.FourByteIO = [] ∧ p8 = p4 + 1) ∧
      (n8.val = 0 → r.IOElement.EightByteIO = [] ∧
        recordStart zeroTierFrame.AVLData (0 + 1) = p8 + 1) ∧
      (n1.val = 0 → n2.val = 0 → n4.val = 0 → n8.val = 0 →
        r.IOElement.OneByteIO = [] ∧ r.IOElement.TwoByteIO = [] ∧
        r.IOElement.FourByteIO = [] ∧ r.IOElement.EightByteIO = [] ∧
        recordStart zeroTierFrame.AVLData (0 + 1) = s + 30) :=
  ⟨(Parse_eq_ok _ _).mpr ⟨32, parseWithCursor_zeroTierBody⟩, _, rfl,
    Parse_empty_tiers [] zeroTierBody zeroTierFrame 0 _
      ((Parse_eq_ok _ _).mpr ⟨32, parseWithCursor_zeroTierBody⟩) rfl⟩

/-- Counterexample to C16 as stated: `Parse` succeeds on `tailSlice` (length 40,
capacity 41) with final cursor 41, reading the last byte `2a` of the eight-byte
value from the spare capacity; after one byte `ff` has been appended, `Parse`
returns a different frame, with the value `0xff` in place of `0x2a`. -/
theorem trailing_bytes_counterexample :
    Parse tailSlice = .ok tailFrame ∧
      tailAppended.elems = tailSlice.elems ++ [0xff] ∧
      ∃ frame2, Parse tailAppended = .ok frame2 ∧ frame2 ≠ tailFrame :=
  ⟨(Parse_eq_ok _ _).mpr ⟨41, parseWithCursor_tailSlice⟩, rfl, _,
    (Parse_eq_ok _ _).mpr ⟨41, parseWithCursor_tailAppended⟩, by decide⟩

/-- C16 (amended): when `Parse` succeeds on `b` with a final cursor `c` that does
not pass `len(b)`, which is always so when `cap(b) = len(b)`, it returns the
same frame and the same final cursor on `b` followed by any bytes `t`; more
generally the result depends only on the first `c` bytes: every slice that is at
least as long and holds the same first `c` bytes gives the same result. -/
theorem Parse_trailing_bytes (b : Slice) (frame : AVLDataArray) (c : Nat)
    (h : parseWithCursor b = .ok (frame, c)) :
    (b.spare = [] → c ≤ b.len) ∧
    (c ≤ b.len → ∀ t spare2 : List Byte,
      parseWithCursor { elems := b.elems ++ t, spare := spare2 } = .ok (frame, c) ∧
      Parse { elems := b.elems ++ t, spare := spare2 } = .ok frame) ∧
    (∀ b2 : Slice, b.len ≤ b2.len → (∀ i, i < c → b2.backing[i]? = b.backing[i]?) →
      parseWithCursor b2 = .ok (frame, c) ∧ Parse b2 = .ok frame) := by
  obtain ⟨_, hcap, _⟩ := parseWithCursor_bounds b frame c h
  refine ⟨?_, ?_, ?_⟩
  · intro hs
    rw [spare_nil_cap b hs] at hcap
    exact hcap
  · intro hc t spare2
    have hp := parseWithCursor_ext b { elems := b.elems ++ t, spare := spare2 } frame c h
      (by unfold Slice.len; simp only [List.length_append]; omega)
      (fun i hi => append_backing b t spare2 i (by omega))
    exact ⟨hp, (Parse_eq_ok _ _).mpr ⟨c, hp⟩⟩
  · intro b2 hlen ha
    have hp := parseWithCursor_ext b b2 frame c h hlen ha
    exact ⟨hp, (Parse_eq_ok _ _).mpr ⟨c, hp⟩⟩

/-- Witness of C16 (amended) on the slice literal of `main`, followed by the
bytes `de ad`. -/
theorem Parse_trailing_bytes_witness :
    parseWithCursor mainBody = .ok (mainFrame, 166) ∧
    ((mainBody.spare = [] → 166 ≤ mainBody.len) ∧
     (166 ≤ mainBody.len → ∀ t spare2 : List Byte,
       parseWithCursor { elems := mainBody.elems ++ t, spare := spare2 }
         = .ok (mainFrame, 166) ∧
       Parse { elems := mainBody.elems ++ t, spare := spare2 } = .ok mainFrame) ∧
     (∀ b2 : Slice, mainBody.len ≤ b2.len →
       (∀ i, i < 166 → b2.backing[i]? = mainBody.backing[i]?) →
       parseWithCursor b2 = .ok (mainFrame, 166) ∧ Parse b2 = .ok mainFrame)) ∧
    Parse { elems := mainBody.elems ++ [0xde, 0xad], spare := [] } = .ok mainFrame :=
  ⟨parseWithCursor_mainBody, Parse_trailing_bytes mainBody mainFrame 166 parseWithCursor_mainBody,
    ((Parse_trailing_bytes mainBody mainFrame 166 parseWithCursor_mainBody).2.1
      (by decide!) [0xde, 0xad] []).2⟩

/-- Counterexample to C17 as stated: on `tailSlice`, of length 40 and capacity
41, `Parse` succeeds and the final cursor is 41, past the end of the slice. -/
theorem cursor_bound_counterexample :
    ∃ frame c, parseWithCursor tailSlice = .ok (frame, c) ∧ tailSlice.len = 40 ∧ c = 41 ∧
      ¬ c ≤ tailSlice.len :=
  ⟨tailFrame, 41, parseWithCursor_tailSlice, by decide, rfl, by decide⟩

/-- C17 (amended): whenever `Parse` succeeds, the final cursor `c` satisfies
`2 + 30 * NoOfData ≤ c ≤ cap(body)`, the length of the buffer is at least
`2 + 30 * NoOfData`, and `c ≤ len(body)` when the buffer has no spare capacity;
hence `Parse` panics on every buffer shorter than `2 + 30 * body[1]` bytes, and
on every buffer shorter than 2 bytes. -/
theorem final_cursor_bounds (body : Slice) :
    (∀ frame c, parseWithCursor body = .ok (frame, c) →
      2 + 30 * frame.NoOfData.val ≤ c ∧ c ≤ body.cap ∧
      2 + 30 * frame.NoOfData.val ≤ body.len ∧ (body.spare = [] → c ≤ body.len)) ∧
    (∀ n : Byte, body.index 1 = .ok n → body.len < 2 + 30 * n.val →
      Parse body = .error .outOfRange) ∧
    (body.len < 2 → Parse body = .error .outOfRange) := by
  have hfail : ∀ (P : Prop), (∀ frame c, parseWithCursor body = .ok (frame, c) → P → False) →
      P → Parse body = .error .outOfRange := by
    intro P hP hp
    cases hR : Parse body with
    | error e => rw [Parse_error _ e hR]
    | ok f =>
      exfalso
      obtain ⟨c, hc⟩ := (Parse_eq_ok _ _).mp hR
      exact hP f c hc hp
  refine ⟨?_, ?_, ?_⟩
  · intro frame c h
    obtain ⟨h1, h2, h3⟩ := parseWithCursor_bounds body frame c h
    refine ⟨h1, h2, h3, ?_⟩
    intro hs
    rw [spare_nil_cap body hs] at h2
    exact h2
  · intro n hn hlt
    refine hfail _ ?_ hlt
    intro frame c h hlt
    obtain ⟨_, h1, _⟩ := parseWithCursor_spec body frame c h
    obtain ⟨_, _, h3⟩ := parseWithCursor_bounds body frame c h
    rw [hn] at h1
    injection h1 with h1
    subst h1
    omega
  · intro hlt
    refine hfail _ ?_ hlt
    intro frame c h hlt
    obtain ⟨_, _, h3⟩ := parseWithCursor_bounds body frame c h
    omega

/-- Witness of C17 (amended): the bounds on the slice literal of `main`
(`122 ≤ 166 ≤ 167`), and the panic on its first 100 bytes, fewer than the
`2 + 30 * 4` bytes the header announces. -/
theorem final_cursor_bounds_witness :
    parseWithCursor mainBody = .ok (mainFrame, 166) ∧
    (2 + 30 * mainFrame.NoOfData.val ≤ 166 ∧ 166 ≤ mainBody.cap ∧
      2 + 30 * mainFrame.NoOfData.val ≤ mainBody.len ∧
      (mainBody.spare = [] → 166 ≤ mainBody.len)) ∧
    truncatedBody.index 1 = .ok 4 ∧ truncatedBody.len < 2 + 30 * (4 : Byte).val ∧
    Parse truncatedBody = .error .outOfRange :=
  ⟨parseWithCursor_mainBody,
    (final_cursor_bounds mainBody).1 mainFrame 166 parseWithCursor_mainBody,
    index_truncatedBody, by decide!,
    (final_cursor_bounds truncatedBody).2.1 4 index_truncatedBody (by decide!)⟩

end Teltonika
